import Mathlib

/-!
# Quest board: card layout and description fitting

A shallow embedding of the pure logic of `src/components/QuestBoard.jsx`:

* `rectsOverlap`, `generatePositions` : the card layout generator;
* `fitFontSize` : the font shrink loop of `QuestNoteModal`;
* `makeDescriptionInfo` : the description analyser.

Modelling conventions.

* A JavaScript number is an IEEE 754 binary64 value (`JSNumber`): sums and products are
  rounded to nearest, ties to even, and comparisons are those of ECMAScript.
* `Math.random()` is a stream `rand : ℕ → JSNumber`; the `k`-th call returns `rand k`,
  and the number of calls made so far is threaded through the loops.
* A JavaScript string is the list of its UTF-16 code units, so `.length` is
  `List.length` and `.slice(0, n)` is `List.take n`.
* The browser's `DOMParser` is not code of this repository; the map from an
  HTML source to `doc.body.textContent` is a parameter `textContent`.
-/

set_option maxRecDepth 100000

namespace QuestBoard

/-! ## JavaScript numbers -/

/-- A JavaScript number (an IEEE 754 binary64 value): `NaN`, an infinity with its sign, or a
finite value given by the rational it stands for. The two zeros are one value here: no
operation used by the layout generator tells them apart. -/
inductive JSNumber where
  | nan : JSNumber
  | inf (negative : Bool) : JSNumber
  | fin (value : ℚ) : JSNumber
deriving DecidableEq

/-- Rounding of a rational to the nearest integer, ties to the even one. -/
def roundHalfEven (t : ℚ) : ℤ :=
  if t - ⌊t⌋ < 1 / 2 then ⌊t⌋
  else if 1 / 2 < t - ⌊t⌋ then ⌊t⌋ + 1
  else if ⌊t⌋ % 2 = 0 then ⌊t⌋
  else ⌊t⌋ + 1

/-- The binary exponent of the binade of `x`: `⌊log₂ |x|⌋`, and `-1022` in the subnormal
range. -/
def binadeExp (x : ℚ) : ℤ :=
  max (Int.log 2 |x|) (-1022)

/-- The spacing of the binary64 values around `x`: 53 significant bits. -/
def ulp (x : ℚ) : ℚ :=
  (2 : ℚ) ^ (binadeExp x - 52)

/-- The binary64 rounding of a rational, to nearest with ties to even, before the overflow
test. -/
def roundDouble (x : ℚ) : ℚ :=
  (roundHalfEven (x / ulp x) : ℚ) * ulp x

/-- The JavaScript number that an exact result `x` is rounded to: the rounded value, or an
infinity when its magnitude reaches `2 ^ 1024`. -/
def JSNumber.ofRat (x : ℚ) : JSNumber :=
  if (2 : ℚ) ^ 1024 ≤ |roundDouble x| then JSNumber.inf (decide (roundDouble x < 0))
  else JSNumber.fin (roundDouble x)

/-- The unary minus of JavaScript. -/
def JSNumber.neg : JSNumber → JSNumber
  | JSNumber.nan => JSNumber.nan
  | JSNumber.inf s => JSNumber.inf (!s)
  | JSNumber.fin a => JSNumber.fin (-a)

/-- The operator `+` of JavaScript on numbers. -/
def JSNumber.add : JSNumber → JSNumber → JSNumber
  | JSNumber.nan, _ => JSNumber.nan
  | _, JSNumber.nan => JSNumber.nan
  | JSNumber.inf s, JSNumber.inf t => if s = t then JSNumber.inf s else JSNumber.nan
  | JSNumber.inf s, JSNumber.fin _ => JSNumber.inf s
  | JSNumber.fin _, JSNumber.inf t => JSNumber.inf t
  | JSNumber.fin a, JSNumber.fin b => JSNumber.ofRat (a + b)

/-- The operator `-` of JavaScript on numbers: the sum with the opposite. -/
def JSNumber.sub (x y : JSNumber) : JSNumber :=
  JSNumber.add x (JSNumber.neg y)

/-- The operator `*` of JavaScript on numbers. -/
def JSNumber.mul : JSNumber → JSNumber → JSNumber
  | JSNumber.nan, _ => JSNumber.nan
  | _, JSNumber.nan => JSNumber.nan
  | JSNumber.inf s, JSNumber.inf t => JSNumber.inf (xor s t)
  | JSNumber.inf s, JSNumber.fin b =>
    if b = 0 then JSNumber.nan else JSNumber.inf (xor s (decide (b < 0)))
  | JSNumber.fin a, JSNumber.inf t =>
    if a = 0 then JSNumber.nan else JSNumber.inf (xor (decide (a < 0)) t)
  | JSNumber.fin a, JSNumber.fin b => JSNumber.ofRat (a * b)

/-- The abstract operation `IsLessThan(x, y)` of ECMAScript on numbers; `none` is its result
`undefined`, given when an operand is `NaN`. -/
def JSNumber.lessThan : JSNumber → JSNumber → Option Bool
  | JSNumber.nan, _ => none
  | _, JSNumber.nan => none
  | JSNumber.inf s, JSNumber.inf t => some (s && !t)
  | JSNumber.inf s, JSNumber.fin _ => some s
  | JSNumber.fin _, JSNumber.inf t => some (!t)
  | JSNumber.fin a, JSNumber.fin b => some (decide (a < b))

/-- The operator `x <= y`: false when `IsLessThan(y, x)` is true or undefined. -/
def JSNumber.le (x y : JSNumber) : Bool :=
  match JSNumber.lessThan y x with
  | some false => true
  | _ => false

/-- The operator `x >= y`: false when `IsLessThan(x, y)` is true or undefined. -/
def JSNumber.ge (x y : JSNumber) : Bool :=
  match JSNumber.lessThan x y with
  | some false => true
  | _ => false

/-- The operator `x === y` on numbers: `NaN` equals nothing, not even itself. -/
def JSNumber.strictEq : JSNumber → JSNumber → Bool
  | JSNumber.nan, _ => false
  | _, JSNumber.nan => false
  | x, y => decide (x = y)

/-! ## Card layout generator -/

/-- Card width, in percent of the board (`CARD_W`). -/
def CARD_W : JSNumber := JSNumber.fin 20

/-- Card height, in percent of the board (`CARD_H`). -/
def CARD_H : JSNumber := JSNumber.fin 30

/-- Retry budget of the rejection sampling (`MAX_TRIES`). -/
def MAX_TRIES : ℕ := 200

/-- A placement rectangle `{top, left, width, height}`. -/
structure Rect where
  top : JSNumber
  left : JSNumber
  width : JSNumber
  height : JSNumber
deriving DecidableEq

/-- The function `rectsOverlap(a, b)`: the negation of the four separation tests, each on a
sum rounded as the engine rounds it. -/
def rectsOverlap (a b : Rect) : Bool :=
  !(b.left.ge (a.left.add a.width) ||
    (b.left.add b.width).le a.left ||
    b.top.ge (a.top.add a.height) ||
    (b.top.add b.height).le a.top)

/-- The rectangle pushed when the retry budget is exhausted (`if (!ok)` branch). -/
def fallbackRect : Rect :=
  { top := JSNumber.fin 0, left := JSNumber.fin 0, width := CARD_W, height := CARD_H }

/-- The candidate built from the random draws number `k` (for `left`) and `k + 1` (for `top`):
`Math.random() * (100 - CARD_W)` and `Math.random() * (100 - CARD_H)`. -/
def candidateAt (rand : ℕ → JSNumber) (k : ℕ) : Rect :=
  { top := (rand (k + 1)).mul ((JSNumber.fin 100).sub CARD_H),
    left := (rand k).mul ((JSNumber.fin 100).sub CARD_W),
    width := CARD_W, height := CARD_H }

/-- The inner loop `while (!ok && tries < MAX_TRIES)`, by recursion on the remaining budget
`MAX_TRIES - tries`. `positions` is the batch so far and `k` the number of random draws already
made. The result is the accepted candidate (`some`, the source's `ok = true`) or `none` when the
budget ran out (`ok = false`), together with the new number of draws. -/
def sampleLoop (rand : ℕ → JSNumber) (positions : List Rect) : ℕ → ℕ → Option Rect × ℕ
  | 0, k => (none, k)
  | budget + 1, k =>
    let candidate := candidateAt rand k
    let collision := positions.any (fun p => rectsOverlap p candidate)
    if !collision then (some candidate, k + 2)
    else sampleLoop rand positions budget (k + 2)

/-- The outer `for` loop of `generatePositions`, with `n` iterations left. Every pushed
rectangle is recorded with the final value of the source's flag `ok` of its iteration:
`true` for a sampled rectangle, `false` for the fallback. -/
def generateLoop (rand : ℕ → JSNumber) :
    ℕ → List (Rect × Bool) → ℕ → List (Rect × Bool)
  | 0, positions, _ => positions
  | n + 1, positions, k =>
    match sampleLoop rand (positions.map Prod.fst) MAX_TRIES k with
    | (some candidate, k') => generateLoop rand n (positions ++ [(candidate, true)]) k'
    | (none, k') => generateLoop rand n (positions ++ [(fallbackRect, false)]) k'

/-- The batch of `generatePositions(count)` with the `ok` flag of each rectangle. -/
def generatePositionsTagged (rand : ℕ → JSNumber) (count : ℕ) : List (Rect × Bool) :=
  generateLoop rand count [] 0

/-- The function `generatePositions(count)` under the random stream `rand`. -/
def generatePositions (rand : ℕ → JSNumber) (count : ℕ) : List Rect :=
  (generatePositionsTagged rand count).map Prod.fst

/-- The invariant of a tagged batch: a rectangle flagged `ok` overlaps no earlier rectangle, and
a rectangle not flagged `ok` is the fallback. -/
def BatchInv (l : List (Rect × Bool)) : Prop :=
  l.Pairwise (fun a b => b.2 = true → rectsOverlap a.1 b.1 = false) ∧
    ∀ x ∈ l, x.2 = false → x.1 = fallbackRect

/-- A random source in the range of `Math.random()`: every draw is a finite number in
`[0, 1)`. -/
def UnitRange (rand : ℕ → JSNumber) : Prop :=
  ∀ k, ∃ q : ℚ, rand k = JSNumber.fin q ∧ 0 ≤ q ∧ q < 1

/-- A rectangle of the fixed card size that lies inside the `100 x 100` area: the tests
`0 <= left <= 100 - 20` and `0 <= top <= 100 - 30` of JavaScript hold, and the values of
`left` and `top` are finite with `left + 20` and `top + 30` at most 100. -/
def InBounds (r : Rect) : Prop :=
  r.width = JSNumber.fin 20 ∧ r.height = JSNumber.fin 30 ∧
  (JSNumber.fin 0).le r.left = true ∧
  r.left.le ((JSNumber.fin 100).sub (JSNumber.fin 20)) = true ∧
  (JSNumber.fin 0).le r.top = true ∧
  r.top.le ((JSNumber.fin 100).sub (JSNumber.fin 30)) = true ∧
  ∃ l t : ℚ, r.left = JSNumber.fin l ∧ r.top = JSNumber.fin t ∧
    0 ≤ l ∧ l + 20 ≤ 100 ∧ 0 ≤ t ∧ t + 30 ≤ 100

/-- A sample random stream: the draws `0.6000000000000001`, `0`, `0.85`, then `0` for ever. -/
def exampleRand (k : ℕ) : JSNumber :=
  if k = 0 then JSNumber.fin (1351079888211149 / 2251799813685248)
  else if k = 2 then JSNumber.fin (7656119366529843 / 9007199254740992)
  else JSNumber.fin 0

/-- The first card of the sample batch: `top = 0`, `left = 48.00000000000001`. -/
def exampleFirst : Rect :=
  { top := JSNumber.fin 0, left := JSNumber.fin (6755399441055745 / 140737488355328),
    width := JSNumber.fin 20, height := JSNumber.fin 30 }

/-- The second card of the sample batch: `top = 0`, `left = 68`. -/
def exampleSecond : Rect :=
  { top := JSNumber.fin 0, left := JSNumber.fin 68, width := JSNumber.fin 20,
    height := JSNumber.fin 30 }

/-- A card at `top = 0.7`, `left = 0`. -/
def upperCard : Rect :=
  { top := JSNumber.fin (3152519739159347 / 4503599627370496), left := JSNumber.fin 0,
    width := JSNumber.fin 20, height := JSNumber.fin 30 }

/-- A card at `top = 30.7`, `left = 0`. -/
def lowerCard : Rect :=
  { top := JSNumber.fin (8641281785017139 / 281474976710656), left := JSNumber.fin 0,
    width := JSNumber.fin 20, height := JSNumber.fin 30 }

/-! ## Font shrink loop -/

/-- The loop `while (overflows && size > minSize) size -= 1` of the layout effect, started at
`size`; `fits size` is the negation of the overflow measurement taken at font size `size`. -/
def shrinkLoop (fits : ℕ → Bool) (minSize : ℕ) : ℕ → ℕ
  | 0 => 0
  | size + 1 =>
    if !fits (size + 1) && decide (size + 1 > minSize) then shrinkLoop fits minSize size
    else size + 1

/-- The shrink step as the interface `fitFontSize(baseFontSize, minSize, fits)`. -/
def fitFontSize (baseFontSize minSize : ℕ) (fits : ℕ → Bool) : ℕ :=
  shrinkLoop fits minSize baseFontSize

/-! ## Description analyser -/

/-- A JavaScript string, as the list of its UTF-16 code units. -/
abbrev JSString := List ℕ

/-- The class `\s` of a JavaScript regular expression, which is also the set of code units
removed by `String.prototype.trim`: TAB, LF, VT, FF, CR, SPACE, U+00A0, U+1680,
U+2000 to U+200A, U+2028, U+2029, U+202F, U+205F, U+3000 and U+FEFF. -/
def isWhitespace (c : ℕ) : Bool :=
  c == 9 || c == 10 || c == 11 || c == 12 || c == 13 || c == 32 || c == 160 || c == 5760 ||
  (decide (8192 ≤ c) && decide (c ≤ 8202)) || c == 8232 || c == 8233 || c == 8239 ||
  c == 8287 || c == 12288 || c == 65279

/-- The class `[.!?]` of the sentence splitting expression. -/
def isTerminator (c : ℕ) : Bool :=
  c == 46 || c == 33 || c == 63

/-- The code unit of the space character `" "`. -/
def SPACE : ℕ := 32

/-- The code unit of the ellipsis character `"…"` (U+2026). -/
def ELLIPSIS : ℕ := 8230

/-- The call `.replace(/\s+/g, " ")`: every maximal run of whitespace becomes one space.
The flag tells whether the previous code unit belonged to the run being replaced. -/
def replaceWsLoop : Bool → JSString → JSString
  | _, [] => []
  | inRun, c :: rest =>
    if isWhitespace c then
      if inRun then replaceWsLoop true rest else SPACE :: replaceWsLoop true rest
    else c :: replaceWsLoop false rest

/-- The call `.replace(/\s+/g, " ")` on a whole string. -/
def replaceWs (s : JSString) : JSString :=
  replaceWsLoop false s

/-- The call `.trim()`: whitespace is removed from both ends. -/
def trim (s : JSString) : JSString :=
  ((s.dropWhile isWhitespace).reverse.dropWhile isWhitespace).reverse

/-- The whitespace normalisation `.replace(/\s+/g, " ").trim()`. -/
def normalize (s : JSString) : JSString :=
  trim (replaceWs s)

/-- Puts a code unit in front of the first piece of a list of pieces. -/
def consHead (c : ℕ) : List JSString → List JSString
  | [] => [[c]]
  | p :: ps => (c :: p) :: ps

/-- The call `.split(/(?<=[.!?])\s+/)` read from left to right. `inSep` tells whether the
previous code unit belongs to a separator match in progress (the greedy `\s+`), `afterTerm`
whether the previous code unit is one of `.`, `!`, `?` (the lookbehind). A separator starts at
a whitespace code unit that follows a terminator; it closes the current piece and extends over
the whole run of whitespace. The result always has at least one piece, the last one being what
follows the last separator (possibly empty). -/
def splitLoop : Bool → Bool → JSString → List JSString
  | _, _, [] => [[]]
  | inSep, afterTerm, c :: rest =>
    if isWhitespace c then
      if inSep then splitLoop true false rest
      else if afterTerm then [] :: splitLoop true false rest
      else consHead c (splitLoop false false rest)
    else consHead c (splitLoop false (isTerminator c) rest)

/-- The call `text.split(/(?<=[.!?])\s+/)`. -/
def splitSentences (text : JSString) : List JSString :=
  splitLoop false false text

/-- The statement `if (current) paragraphs.push(current.trim())`, on the state
`(paragraphs, current)`; the result is the new value of `paragraphs`. -/
def flushCurrent (st : List JSString × JSString) : List JSString :=
  if st.2 ≠ [] then st.1 ++ [trim st.2] else st.1

/-- The body of `sentences.forEach`, on the state `(paragraphs, current)`. -/
def packStep (st : List JSString × JSString) (s : JSString) : List JSString × JSString :=
  if s = [] then st
  else if (st.2 ++ [SPACE] ++ s).length > 280 then (flushCurrent st, s)
  else (st.1, if st.2 ≠ [] then st.2 ++ [SPACE] ++ s else s)

/-- The paragraph packing: the `forEach` loop from `paragraphs = []`, `current = ""`, then the
final flush `if (current) paragraphs.push(current.trim())`. -/
def packParagraphs (sentences : List JSString) : List JSString :=
  flushCurrent (sentences.foldl packStep ([], []))

/-- The size tier `(baseFontSize, limit)` chosen from the length of the plain text. -/
def sizeTier (length : ℕ) : ℕ × ℕ :=
  if length ≤ 350 then (20, 350)
  else if length ≤ 800 then (18, 800)
  else (16, 900)

/-- The value `fullText`: `(doc.body.textContent || "").replace(/\s+/g, " ").trim()`, where
`textContent html` is the text content of the body of the parsed document (`none` for `null`). -/
def fullTextOf (textContent : JSString → Option JSString) (html : JSString) : JSString :=
  normalize ((textContent html).getD [])

/-- The value `text`: `fullText.slice(0, limit)`, with `"…"` appended when
`fullText.length > limit`. -/
def truncateText (fullText : JSString) : JSString :=
  let limit := (sizeTier fullText.length).2
  if fullText.length > limit then fullText.take limit ++ [ELLIPSIS] else fullText.take limit

/-- The result `{paragraphs, baseFontSize}` of `makeDescriptionInfo`. -/
structure DescriptionInfo where
  paragraphs : List JSString
  baseFontSize : ℕ
deriving DecidableEq

/-- The function `makeDescriptionInfo(html)`; `none` is `null` or `undefined`. -/
def makeDescriptionInfo (textContent : JSString → Option JSString) (html : Option JSString) :
    DescriptionInfo :=
  match html with
  | none => { paragraphs := [], baseFontSize := 18 }
  | some h =>
    if h = [] then { paragraphs := [], baseFontSize := 18 }
    else
      let fullText := fullTextOf textContent h
      { paragraphs := packParagraphs (splitSentences (truncateText fullText)),
        baseFontSize := (sizeTier fullText.length).1 }

/-- The call `paragraphs.join(" ")` (the value `descriptionKey` of `QuestNoteModal`). -/
def joinSpace : List JSString → JSString
  | [] => []
  | [p] => p
  | p :: q :: rest => p ++ SPACE :: joinSpace (q :: rest)

/-- The code units of a Lean string literal whose characters are all in the basic plane. -/
def ofString (s : String) : JSString :=
  s.toList.map Char.toNat

/-- Every whitespace code unit of the string is a space that is not followed by whitespace. -/
def WsSingle : JSString → Prop
  | [] => True
  | c :: rest =>
    (isWhitespace c = true → c = SPACE ∧ ∀ d, rest.head? = some d → isWhitespace d = false) ∧
      WsSingle rest

/-- The string neither starts nor ends with whitespace. -/
def NoEdgeWs (p : JSString) : Prop :=
  (∀ c, p.head? = some c → isWhitespace c = false) ∧
    ∀ c, p.getLast? = some c → isWhitespace c = false

/-- A whitespace-normalised string: single spaces only, none at either end. -/
def Clean (t : JSString) : Prop :=
  WsSingle t ∧ NoEdgeWs t

/-- A packing state whose `current` has no whitespace at either end and is empty only before
the first sentence. -/
def GoodState (st : List JSString × JSString) : Prop :=
  NoEdgeWs st.2 ∧ (st.2 = [] → st.1 = [])

/-- A paragraph that is non-empty and is one of the sentences `all` or has at most 280 code
units. -/
def ParaOk (all : List JSString) (p : JSString) : Prop :=
  p ≠ [] ∧ (p ∈ all ∨ p.length ≤ 280)

/-- The non-empty sentences (the `forEach` body returns at once on an empty one). -/
def nonEmpties (sentences : List JSString) : List JSString :=
  sentences.filter (fun s => decide (s ≠ []))

/-- The text contains no sentence break: no `.`, `!` or `?` immediately followed by
whitespace. -/
def NoSentenceBreak (t : JSString) : Prop :=
  t.Chain' (fun a b => ¬(isTerminator a = true ∧ isWhitespace b = true))

/-- The string ends with one of `.`, `!`, `?`. -/
def EndsWithTerminator (s : JSString) : Prop :=
  ∃ c, s.getLast? = some c ∧ isTerminator c = true

/-- The markup parser on a source without markup: the text content is the source itself. -/
def plainTextContent (s : JSString) : Option JSString := some s

/-- A plain text of 300 code units: 29 times `"Aaaaaaaa. "`, then `"Aaaaaaaaa."`. -/
def thirtySentences : JSString :=
  (List.replicate 29 (ofString "Aaaaaaaa. ")).flatten ++ ofString "Aaaaaaaaa."

/-- A plain text of 300 code units: `"A. B."` followed by 295 spaces. -/
def paddedSentences : JSString :=
  ofString "A. B." ++ List.replicate 295 SPACE

/-- A plain text of 1000 code units: the letter `a` a thousand times. -/
def thousandLetters : JSString :=
  List.replicate 1000 97

/-! ## Layout generator: proofs -/

/-! ### JavaScript numbers: rounding -/

theorem roundHalfEven_floor_le (t : ℚ) : ⌊t⌋ ≤ roundHalfEven t := by
  unfold roundHalfEven
  split_ifs <;> omega

theorem roundHalfEven_le_floor_succ (t : ℚ) : roundHalfEven t ≤ ⌊t⌋ + 1 := by
  unfold roundHalfEven
  split_ifs <;> omega

theorem roundHalfEven_intCast (n : ℤ) : roundHalfEven (n : ℚ) = n := by
  unfold roundHalfEven
  rw [Int.floor_intCast]
  have : ((n : ℚ) - (n : ℚ)) < 1 / 2 := by norm_num
  rw [if_pos this]

theorem roundHalfEven_nonneg (t : ℚ) (h : 0 ≤ t) : 0 ≤ roundHalfEven t :=
  le_trans (Int.floor_nonneg.2 h) (roundHalfEven_floor_le t)

theorem roundHalfEven_le_int (t : ℚ) (n : ℤ) (h : t ≤ n) : roundHalfEven t ≤ n := by
  have hfl : ⌊t⌋ ≤ n := by
    have := Int.floor_le t
    exact_mod_cast le_trans this h
  rcases lt_or_eq_of_le hfl with hlt | heq
  · have := roundHalfEven_le_floor_succ t
    omega
  · have ht : t = n := by
      have := Int.floor_le t
      rw [heq] at this
      exact le_antisymm h this
    rw [ht, roundHalfEven_intCast]

theorem ulp_pos (x : ℚ) : 0 < ulp x := by
  unfold ulp
  positivity

theorem binadeExp_le (x : ℚ) (hx : |x| < 2 ^ 53) : binadeExp x ≤ 52 := by
  unfold binadeExp
  apply max_le _ (by norm_num)
  rcases eq_or_lt_of_le (abs_nonneg x) with h0 | hpos
  · rw [← h0, Int.log_zero_right]
    norm_num
  · have h : |x| < ((2 : ℕ) : ℚ) ^ (53 : ℤ) := by
      norm_num at hx ⊢
      exact hx
    have := (Int.lt_zpow_iff_log_lt (b := 2) (by norm_num) hpos).1 h
    omega

/-- An integer is a whole number of spacings of any value below `2 ^ 53`. -/
theorem int_div_ulp (x : ℚ) (hx : |x| < 2 ^ 53) (c : ℤ) :
    (c : ℚ) / ulp x = ((c * 2 ^ (52 - binadeExp x).toNat : ℤ) : ℚ) := by
  have he := binadeExp_le x hx
  have hnat : ((52 - binadeExp x).toNat : ℤ) = 52 - binadeExp x := Int.toNat_of_nonneg (by omega)
  unfold ulp
  rw [div_eq_iff (by positivity)]
  push_cast
  rw [mul_assoc, ← zpow_natCast, hnat, ← zpow_add₀ (by norm_num : (2 : ℚ) ≠ 0)]
  simp

theorem roundDouble_nonneg (x : ℚ) (h : 0 ≤ x) : 0 ≤ roundDouble x := by
  unfold roundDouble
  apply mul_nonneg _ (ulp_pos x).le
  exact_mod_cast roundHalfEven_nonneg _ (div_nonneg h (ulp_pos x).le)

/-- Rounding does not cross an integer below `2 ^ 53`. -/
theorem roundDouble_le_int (x : ℚ) (c : ℤ) (h0 : 0 ≤ x) (h : x ≤ c) (hc : (c : ℚ) < 2 ^ 53) :
    roundDouble x ≤ c := by
  have hx : |x| < 2 ^ 53 := by
    rw [abs_of_nonneg h0]
    exact lt_of_le_of_lt h hc
  have hdiv := int_div_ulp x hx c
  have hle : x / ulp x ≤ ((c * 2 ^ (52 - binadeExp x).toNat : ℤ) : ℚ) := by
    rw [← hdiv]
    exact div_le_div_of_nonneg_right h (ulp_pos x).le
  have hr := roundHalfEven_le_int _ _ hle
  unfold roundDouble
  have hq : ((roundHalfEven (x / ulp x) : ℤ) : ℚ) ≤ (c : ℚ) / ulp x := by
    rw [hdiv]
    exact_mod_cast hr
  calc (roundHalfEven (x / ulp x) : ℚ) * ulp x ≤ (c : ℚ) / ulp x * ulp x :=
        mul_le_mul_of_nonneg_right hq (ulp_pos x).le
    _ = c := div_mul_cancel₀ _ (ulp_pos x).ne'

/-- An integer below `2 ^ 53` in magnitude is a binary64 value. -/
theorem roundDouble_int (c : ℤ) (hc : |(c : ℚ)| < 2 ^ 53) : roundDouble (c : ℚ) = c := by
  unfold roundDouble
  rw [int_div_ulp (c : ℚ) hc c, roundHalfEven_intCast, ← int_div_ulp (c : ℚ) hc c]
  exact div_mul_cancel₀ _ (ulp_pos _).ne'

theorem binadeExp_eq (x : ℚ) (e : ℤ) (hlo : (2 : ℚ) ^ e ≤ x) (hhi : x < (2 : ℚ) ^ (e + 1))
    (he : -1022 ≤ e) : binadeExp x = e := by
  have hpos : 0 < x := lt_of_lt_of_le (by positivity) hlo
  have h1 : ((2 : ℕ) : ℚ) ^ e ≤ x := by exact_mod_cast hlo
  have h2 : x < ((2 : ℕ) : ℚ) ^ (e + 1) := by exact_mod_cast hhi
  have hlog1 := (Int.zpow_le_iff_le_log (b := 2) (by norm_num) hpos).1 h1
  have hlog2 := (Int.lt_zpow_iff_log_lt (b := 2) (by norm_num) hpos).1 h2
  unfold binadeExp
  rw [abs_of_pos hpos]
  omega

/-- The rounding of a positive value of the binade `[2 ^ e, 2 ^ (e + 1))`. -/
theorem roundDouble_eq (x : ℚ) (e n : ℤ) (hlo : (2 : ℚ) ^ e ≤ x) (hhi : x < (2 : ℚ) ^ (e + 1))
    (he : -1022 ≤ e) (hn : roundHalfEven (x / (2 : ℚ) ^ (e - 52)) = n) :
    roundDouble x = n * (2 : ℚ) ^ (e - 52) := by
  unfold roundDouble ulp
  rw [binadeExp_eq x e hlo hhi he, hn]

theorem roundHalfEven_down (t : ℚ) (f : ℤ) (h1 : (f : ℚ) ≤ t) (h2 : t - f < 1 / 2) :
    roundHalfEven t = f := by
  have hf : ⌊t⌋ = f := by
    rw [Int.floor_eq_iff]
    constructor
    · exact h1
    · linarith
  unfold roundHalfEven
  rw [hf, if_pos h2]

theorem roundHalfEven_up (t : ℚ) (f : ℤ) (h1 : 1 / 2 < t - f) (h2 : t < f + 1) :
    roundHalfEven t = f + 1 := by
  have hf : ⌊t⌋ = f := by
    rw [Int.floor_eq_iff]
    constructor
    · linarith
    · exact h2
  unfold roundHalfEven
  rw [hf, if_neg (by linarith), if_pos h1]

theorem roundHalfEven_tie_even (t : ℚ) (f : ℤ) (h : t = f + 1 / 2) (hf2 : f % 2 = 0) :
    roundHalfEven t = f := by
  have hf : ⌊t⌋ = f := by
    rw [Int.floor_eq_iff]
    constructor <;> linarith
  unfold roundHalfEven
  rw [hf, if_neg (by linarith), if_neg (by linarith), if_pos hf2]

theorem JSNumber.ofRat_fin (x : ℚ) (h : |roundDouble x| < (2 : ℚ) ^ 1024) :
    JSNumber.ofRat x = JSNumber.fin (roundDouble x) := by
  unfold JSNumber.ofRat
  rw [if_neg (not_le.2 h)]

/-- The product `0.1 * 80` is `8`: the exact product `8.000000000000000444` is rounded. -/
theorem mul_tenth_eighty :
    JSNumber.mul (JSNumber.fin (3602879701896397 / 36028797018963968)) (JSNumber.fin 80) =
      JSNumber.fin 8 := by
  have hr : roundDouble (3602879701896397 / 36028797018963968 * 80) = 8 := by
    rw [roundDouble_eq _ 3 4503599627370496 (by norm_num) (by norm_num) (by norm_num)
      (roundHalfEven_down _ _ (by norm_num) (by norm_num))]
    norm_num
  show JSNumber.ofRat _ = _
  rw [JSNumber.ofRat_fin _ (by rw [hr, abs_of_nonneg (by norm_num)]; norm_num), hr]

/-- The sum `48.00000000000001 + 20` is `68`: the exact sum is half-way between `68` and the
next value, and the tie goes to the even one. -/
theorem add_tie_sixtyEight :
    JSNumber.add (JSNumber.fin (6755399441055745 / 140737488355328)) (JSNumber.fin 20) =
      JSNumber.fin 68 := by
  have hr : roundDouble (6755399441055745 / 140737488355328 + 20) = 68 := by
    rw [roundDouble_eq _ 6 4785074604081152 (by norm_num) (by norm_num) (by norm_num)
      (roundHalfEven_tie_even _ _ (by norm_num) (by norm_num))]
    norm_num
  show JSNumber.ofRat _ = _
  rw [JSNumber.ofRat_fin _ (by rw [hr, abs_of_nonneg (by norm_num)]; norm_num), hr]

theorem JSNumber.le_fin (a b : ℚ) : (JSNumber.fin a).le (JSNumber.fin b) = true ↔ a ≤ b := by
  unfold JSNumber.le JSNumber.lessThan
  by_cases h : b < a
  · simp [h, not_le.2 h]
  · simp [h, not_lt.1 h]

theorem JSNumber.ge_fin (a b : ℚ) : (JSNumber.fin a).ge (JSNumber.fin b) = true ↔ b ≤ a :=
  JSNumber.le_fin b a

/-- The operators `x >= y` and `y <= x` are the same test `IsLessThan(x, y)`. -/
theorem JSNumber.ge_eq_le (x y : JSNumber) : x.ge y = y.le x := rfl

/-- Two strictly equal numbers are neither less than the other. -/
theorem JSNumber.lessThan_of_strictEq (x y : JSNumber) (h : x.strictEq y = true) :
    x.lessThan y = some false ∧ y.lessThan x = some false := by
  cases x with
  | nan => simp [JSNumber.strictEq] at h
  | inf s =>
    cases y with
    | nan => simp [JSNumber.strictEq] at h
    | inf t =>
      simp only [JSNumber.strictEq, decide_eq_true_eq, JSNumber.inf.injEq] at h
      subst h
      cases s <;> simp [JSNumber.lessThan]
    | fin b => simp [JSNumber.strictEq] at h
  | fin a =>
    cases y with
    | nan => simp [JSNumber.strictEq] at h
    | inf t => simp [JSNumber.strictEq] at h
    | fin b =>
      simp only [JSNumber.strictEq, decide_eq_true_eq, JSNumber.fin.injEq] at h
      subst h
      simp [JSNumber.lessThan]

/-- Strict equality is equality of the two numbers, `NaN` excepted. -/
theorem JSNumber.strictEq_iff (x y : JSNumber) :
    x.strictEq y = true ↔ x = y ∧ x ≠ JSNumber.nan := by
  cases x <;> cases y <;> simp [JSNumber.strictEq]

theorem JSNumber.ge_of_strictEq (x y : JSNumber) (h : x.strictEq y = true) :
    x.ge y = true := by
  unfold JSNumber.ge
  rw [(JSNumber.lessThan_of_strictEq x y h).1]

theorem JSNumber.le_of_strictEq (x y : JSNumber) (h : x.strictEq y = true) :
    x.le y = true := by
  unfold JSNumber.le
  rw [(JSNumber.lessThan_of_strictEq x y h).2]

theorem JSNumber.add_fin (a b : ℚ) :
    (JSNumber.fin a).add (JSNumber.fin b) = JSNumber.ofRat (a + b) := rfl

theorem JSNumber.mul_fin (a b : ℚ) :
    (JSNumber.fin a).mul (JSNumber.fin b) = JSNumber.ofRat (a * b) := rfl

theorem JSNumber.sub_fin (a b : ℚ) :
    (JSNumber.fin a).sub (JSNumber.fin b) = JSNumber.ofRat (a + -b) := rfl

theorem JSNumber.ofRat_int (c : ℤ) (hc : |(c : ℚ)| < 2 ^ 53) :
    JSNumber.ofRat (c : ℚ) = JSNumber.fin c := by
  have hr := roundDouble_int c hc
  rw [JSNumber.ofRat_fin _ (by rw [hr]; exact lt_trans hc (by norm_num)), hr]

theorem hundred_sub_CARD_W : (JSNumber.fin 100).sub CARD_W = JSNumber.fin 80 := by
  have := JSNumber.ofRat_int 80 (by norm_num)
  unfold CARD_W
  rw [JSNumber.sub_fin]
  norm_num at this ⊢
  exact this

theorem hundred_sub_CARD_H : (JSNumber.fin 100).sub CARD_H = JSNumber.fin 70 := by
  have := JSNumber.ofRat_int 70 (by norm_num)
  unfold CARD_H
  rw [JSNumber.sub_fin]
  norm_num at this ⊢
  exact this

/-- The rounded product of a draw in `[0, 1)` by a whole number `c` below `2 ^ 53` is a finite
number between `0` and `c`. -/
theorem JSNumber.mul_unit (q : ℚ) (c : ℤ) (h0 : 0 ≤ q) (h1 : q < 1) (hc0 : 0 ≤ c)
    (hc : (c : ℚ) < 2 ^ 53) :
    ∃ v : ℚ, (JSNumber.fin q).mul (JSNumber.fin c) = JSNumber.fin v ∧ 0 ≤ v ∧ v ≤ c := by
  have hc0' : (0 : ℚ) ≤ c := by exact_mod_cast hc0
  have hprod0 : 0 ≤ q * c := mul_nonneg h0 hc0'
  have hprod : q * c ≤ c := by nlinarith
  have hlo := roundDouble_nonneg _ hprod0
  have hhi := roundDouble_le_int _ c hprod0 hprod hc
  refine ⟨roundDouble (q * c), ?_, hlo, hhi⟩
  rw [JSNumber.mul_fin]
  apply JSNumber.ofRat_fin
  rw [abs_of_nonneg hlo]
  exact lt_of_le_of_lt hhi (lt_trans hc (by norm_num))

/-! ## Layout generator: proofs about the loops -/

theorem sampleLoop_some (rand : ℕ → JSNumber) (positions : List Rect) (budget k : ℕ)
    (c : Rect) (k' : ℕ) (h : sampleLoop rand positions budget k = (some c, k')) :
    (∃ m, c = candidateAt rand m) ∧ ∀ p ∈ positions, rectsOverlap p c = false := by
  induction budget generalizing k with
  | zero => simp [sampleLoop] at h
  | succ b ih =>
    simp only [sampleLoop] at h
    split at h
    · rename_i hc
      simp only [Prod.mk.injEq, Option.some.injEq] at h
      obtain ⟨rfl, -⟩ := h
      refine ⟨⟨k, rfl⟩, ?_⟩
      intro p hp
      simp only [Bool.not_eq_true', List.any_eq_false] at hc
      simpa using hc p hp
    · exact ih _ h

theorem generateLoop_length (rand : ℕ → JSNumber) (n : ℕ) (positions : List (Rect × Bool))
    (k : ℕ) : (generateLoop rand n positions k).length = positions.length + n := by
  induction n generalizing positions k with
  | zero => simp [generateLoop]
  | succ n ih =>
    simp only [generateLoop]
    split <;> simp [ih] <;> omega

/-- C1: for every count and every outcome of the random source, `generatePositions(count)`
returns exactly `count` rectangles; in particular `count = 0` gives the empty sequence. -/
theorem generatePositions_length (rand : ℕ → JSNumber) (count : ℕ) :
    (generatePositions rand count).length = count ∧ generatePositions rand 0 = [] := by
  constructor
  · simp [generatePositions, generatePositionsTagged, generateLoop_length]
  · simp [generatePositions, generatePositionsTagged, generateLoop]

theorem generateLoop_inv (rand : ℕ → JSNumber) (n : ℕ) (positions : List (Rect × Bool))
    (k : ℕ) (h : BatchInv positions) : BatchInv (generateLoop rand n positions k) := by
  induction n generalizing positions k with
  | zero => simpa [generateLoop] using h
  | succ n ih =>
    simp only [generateLoop]
    split
    · rename_i c k' hs
      apply ih
      obtain ⟨-, hno⟩ := sampleLoop_some rand _ _ _ _ _ hs
      refine ⟨?_, ?_⟩
      · rw [List.pairwise_append]
        refine ⟨h.1, List.pairwise_singleton _ _, ?_⟩
        intro a ha b hb _
        simp only [List.mem_singleton] at hb
        subst hb
        exact hno a.1 (List.mem_map_of_mem _ ha)
      · intro x hx hfalse
        rcases List.mem_append.1 hx with hx | hx
        · exact h.2 x hx hfalse
        · simp only [List.mem_singleton] at hx
          subst hx
          simp at hfalse
    · rename_i k' hs
      apply ih
      refine ⟨?_, ?_⟩
      · rw [List.pairwise_append]
        refine ⟨h.1, List.pairwise_singleton _ _, ?_⟩
        intro a _ b hb hb2
        simp only [List.mem_singleton] at hb
        subst hb
        simp at hb2
      · intro x hx _
        rcases List.mem_append.1 hx with hx | hx
        · exact h.2 x hx ‹_›
        · simp only [List.mem_singleton] at hx
          subst hx
          rfl

theorem generatePositionsTagged_inv (rand : ℕ → JSNumber) (count : ℕ) :
    BatchInv (generatePositionsTagged rand count) :=
  generateLoop_inv rand count [] 0 ⟨List.Pairwise.nil, by simp⟩

theorem rectsOverlap_comm (a b : Rect) : rectsOverlap a b = rectsOverlap b a := by
  have hbool : ∀ p q r s : Bool, (!(p || q || r || s)) = (!(q || p || s || r)) := by decide
  exact hbool _ _ _ _

theorem tagged_getElem? (rand : ℕ → JSNumber) (count i : ℕ) (a : Rect) (ok : Bool)
    (ha : (generatePositions rand count)[i]? = some a)
    (hok : ((generatePositionsTagged rand count).map Prod.snd)[i]? = some ok) :
    (generatePositionsTagged rand count)[i]? = some (a, ok) := by
  simp only [generatePositions, List.getElem?_map, Option.map_eq_some'] at ha hok
  obtain ⟨x, hx, rfl⟩ := ha
  obtain ⟨y, hy, rfl⟩ := hok
  rw [hx] at hy
  cases hy
  exact hx

/-- C2: in the batch of `generatePositions(count)`, whatever the random source, a rectangle
accepted by sampling (its flag `ok` is true) overlaps no earlier rectangle of the batch, and a
rectangle not accepted by sampling is the fallback `{top: 0, left: 0, width: 20, height: 30}`;
so a rectangle that overlaps an earlier one is the fallback, and two rectangles that are both
accepted by sampling do not overlap, in either order of the arguments. -/
theorem generatePositions_accepted_disjoint (rand : ℕ → JSNumber) (count i j : ℕ)
    (a b : Rect) (oka okb : Bool) (hij : i < j)
    (ha : (generatePositions rand count)[i]? = some a)
    (hb : (generatePositions rand count)[j]? = some b)
    (hoka : ((generatePositionsTagged rand count).map Prod.snd)[i]? = some oka)
    (hokb : ((generatePositionsTagged rand count).map Prod.snd)[j]? = some okb) :
    (okb = true → rectsOverlap a b = false) ∧
    (okb = false → b =
      { top := JSNumber.fin 0, left := JSNumber.fin 0, width := JSNumber.fin 20,
        height := JSNumber.fin 30 }) ∧
    (rectsOverlap a b = true → b =
      { top := JSNumber.fin 0, left := JSNumber.fin 0, width := JSNumber.fin 20,
        height := JSNumber.fin 30 }) ∧
    (oka = true → okb = true → rectsOverlap a b = false ∧ rectsOverlap b a = false) := by
  have hta := tagged_getElem? rand count i a oka ha hoka
  have htb := tagged_getElem? rand count j b okb hb hokb
  obtain ⟨hpw, hfb⟩ := generatePositionsTagged_inv rand count
  rw [List.pairwise_iff_getElem] at hpw
  obtain ⟨hi, hia⟩ := List.getElem?_eq_some.1 hta
  obtain ⟨hj, hjb⟩ := List.getElem?_eq_some.1 htb
  have h1 : okb = true → rectsOverlap a b = false := by
    intro hokb
    have := hpw i j hi hj hij
    rw [hia, hjb] at this
    exact this hokb
  have h2 : okb = false → b =
      { top := JSNumber.fin 0, left := JSNumber.fin 0, width := JSNumber.fin 20,
        height := JSNumber.fin 30 } := by
    intro hokb
    exact hfb (b, okb) (hjb ▸ List.getElem_mem hj) hokb
  refine ⟨h1, h2, ?_, ?_⟩
  · intro hov
    cases okb with
    | false => exact h2 rfl
    | true => rw [h1 rfl] at hov; cases hov
  · intro _ hokb
    exact ⟨h1 hokb, by rw [rectsOverlap_comm]; exact h1 hokb⟩

theorem candidateAt_inBounds (rand : ℕ → JSNumber) (hrand : UnitRange rand) (k : ℕ) :
    InBounds (candidateAt rand k) := by
  obtain ⟨q0, hq0, h00, h01⟩ := hrand k
  obtain ⟨q1, hq1, h10, h11⟩ := hrand (k + 1)
  obtain ⟨l, hl, hl0, hl1⟩ := JSNumber.mul_unit q0 80 h00 h01 (by norm_num) (by norm_num)
  obtain ⟨t, ht, ht0, ht1⟩ := JSNumber.mul_unit q1 70 h10 h11 (by norm_num) (by norm_num)
  have hleft : (candidateAt rand k).left = JSNumber.fin l := by
    show (rand k).mul ((JSNumber.fin 100).sub CARD_W) = _
    rw [hundred_sub_CARD_W, hq0]
    exact_mod_cast hl
  have htop : (candidateAt rand k).top = JSNumber.fin t := by
    show (rand (k + 1)).mul ((JSNumber.fin 100).sub CARD_H) = _
    rw [hundred_sub_CARD_H, hq1]
    exact_mod_cast ht
  have hw := hundred_sub_CARD_W
  have hh := hundred_sub_CARD_H
  unfold CARD_W at hw
  unfold CARD_H at hh
  have hl1' : l ≤ 80 := by exact_mod_cast hl1
  have ht1' : t ≤ 70 := by exact_mod_cast ht1
  refine ⟨rfl, rfl, ?_, ?_, ?_, ?_, l, t, hleft, htop, hl0, by linarith, ht0, by linarith⟩
  · rw [hleft, JSNumber.le_fin]
    exact hl0
  · rw [hleft, hw, JSNumber.le_fin]
    exact hl1'
  · rw [htop, JSNumber.le_fin]
    exact ht0
  · rw [htop, hh, JSNumber.le_fin]
    exact ht1'

theorem fallbackRect_inBounds : InBounds fallbackRect := by
  have hw := hundred_sub_CARD_W
  have hh := hundred_sub_CARD_H
  unfold CARD_W at hw
  unfold CARD_H at hh
  refine ⟨rfl, rfl, ?_, ?_, ?_, ?_, 0, 0, rfl, rfl, le_refl _, by norm_num, le_refl _,
    by norm_num⟩
  · show (JSNumber.fin 0).le (JSNumber.fin 0) = true
    rw [JSNumber.le_fin]
  · show (JSNumber.fin 0).le _ = true
    rw [hw, JSNumber.le_fin]
    norm_num
  · show (JSNumber.fin 0).le (JSNumber.fin 0) = true
    rw [JSNumber.le_fin]
  · show (JSNumber.fin 0).le _ = true
    rw [hh, JSNumber.le_fin]
    norm_num

theorem generateLoop_inBounds (rand : ℕ → JSNumber) (hrand : UnitRange rand) (n : ℕ)
    (positions : List (Rect × Bool)) (k : ℕ) (h : ∀ x ∈ positions, InBounds x.1) :
    ∀ x ∈ generateLoop rand n positions k, InBounds x.1 := by
  induction n generalizing positions k with
  | zero => simpa [generateLoop] using h
  | succ n ih =>
    simp only [generateLoop]
    split
    · rename_i c k' hs
      apply ih
      obtain ⟨⟨m, rfl⟩, -⟩ := sampleLoop_some rand _ _ _ _ _ hs
      intro x hx
      rcases List.mem_append.1 hx with hx | hx
      · exact h x hx
      · simp only [List.mem_singleton] at hx
        subst hx
        exact candidateAt_inBounds rand hrand m
    · apply ih
      intro x hx
      rcases List.mem_append.1 hx with hx | hx
      · exact h x hx
      · simp only [List.mem_singleton] at hx
        subst hx
        exact fallbackRect_inBounds

/-- C3: when the random source yields numbers in `[0, 1)`, every rectangle returned by
`generatePositions(count)`, sampled or fallback, has width 20 and height 30, passes the tests
`0 <= left`, `left <= 100 - 20`, `0 <= top` and `top <= 100 - 30` as JavaScript evaluates them,
and has finite `left` and `top` with `left + 20 <= 100` and `top + 30 <= 100`, so that it lies
inside the `100 x 100` area. The products are rounded as binary64 products. -/
theorem generatePositions_inBounds (rand : ℕ → JSNumber) (count : ℕ)
    (hrand : ∀ k, ∃ q : ℚ, rand k = JSNumber.fin q ∧ 0 ≤ q ∧ q < 1) (r : Rect)
    (hr : r ∈ generatePositions rand count) :
    r.width = JSNumber.fin 20 ∧ r.height = JSNumber.fin 30 ∧
    (JSNumber.fin 0).le r.left = true ∧
    r.left.le ((JSNumber.fin 100).sub (JSNumber.fin 20)) = true ∧
    (JSNumber.fin 0).le r.top = true ∧
    r.top.le ((JSNumber.fin 100).sub (JSNumber.fin 30)) = true ∧
    ∃ l t : ℚ, r.left = JSNumber.fin l ∧ r.top = JSNumber.fin t ∧
      0 ≤ l ∧ l + 20 ≤ 100 ∧ 0 ≤ t ∧ t + 30 ≤ 100 := by
  simp only [generatePositions, List.mem_map] at hr
  obtain ⟨x, hx, rfl⟩ := hr
  exact generateLoop_inBounds rand hrand count [] 0 (by simp) x hx

/-- C9: two rectangles that touch at an edge, that is for which one of the equalities
`b.left === a.left + a.width`, `b.left + b.width === a.left`, `b.top === a.top + a.height`,
`b.top + b.height === a.top` holds as JavaScript evaluates it, do not overlap, in either order
of the arguments of `rectsOverlap`. -/
theorem rectsOverlap_touching (a b : Rect)
    (h : b.left.strictEq (a.left.add a.width) = true ∨
      (b.left.add b.width).strictEq a.left = true ∨
      b.top.strictEq (a.top.add a.height) = true ∨
      (b.top.add b.height).strictEq a.top = true) :
    rectsOverlap a b = false ∧ rectsOverlap b a = false := by
  have key : rectsOverlap a b = false := by
    unfold rectsOverlap
    rcases h with h | h | h | h
    · rw [JSNumber.ge_of_strictEq _ _ h]
      rfl
    · rw [JSNumber.le_of_strictEq _ _ h]
      simp
    · rw [JSNumber.ge_of_strictEq _ _ h]
      simp
    · rw [JSNumber.le_of_strictEq _ _ h]
      simp
  exact ⟨key, by rw [rectsOverlap_comm]; exact key⟩

/-! ## Font shrink loop: proofs -/

theorem shrinkLoop_spec (fits : ℕ → Bool) (minSize base : ℕ) (h : minSize ≤ base) :
    minSize ≤ shrinkLoop fits minSize base ∧ shrinkLoop fits minSize base ≤ base ∧
    (fits (shrinkLoop fits minSize base) = true ∨ shrinkLoop fits minSize base = minSize) ∧
    ∀ s, shrinkLoop fits minSize base < s → s ≤ base → fits s = false := by
  induction base with
  | zero =>
    have : minSize = 0 := by omega
    subst this
    simp only [shrinkLoop]
    refine ⟨le_refl _, le_refl _, Or.inr trivial, ?_⟩
    intro s hs hs0
    omega
  | succ n ih =>
    simp only [shrinkLoop]
    split
    · rename_i hc
      simp only [Bool.and_eq_true, Bool.not_eq_true', decide_eq_true_eq] at hc
      obtain ⟨h1, h2, h3, h4⟩ := ih (by omega)
      refine ⟨h1, by omega, h3, ?_⟩
      intro s hs hle
      rcases Nat.lt_or_ge n s with hlt | hge
      · have : s = n + 1 := by omega
        subst this
        exact hc.1
      · exact h4 s hs hge
    · rename_i hc
      simp only [Bool.and_eq_true, Bool.not_eq_true', decide_eq_true_eq, not_and, not_lt] at hc
      refine ⟨h, le_refl _, ?_, ?_⟩
      · cases hf : fits (n + 1) with
        | true => exact Or.inl rfl
        | false => exact Or.inr (by have := hc hf; omega)
      · intro s hs hle
        omega

/-- C4: for every base font size of at least 10 and every oracle `fits`, the shrink loop
started at the base size with minimum 10 returns a size between 10 and the base size; when
some size in that range fits, it returns the largest one that does; when none does, it
returns 10. -/
theorem fitFontSize_largest (baseFontSize : ℕ) (fits : ℕ → Bool) (h : 10 ≤ baseFontSize) :
    10 ≤ fitFontSize baseFontSize 10 fits ∧ fitFontSize baseFontSize 10 fits ≤ baseFontSize ∧
    ((∃ s, 10 ≤ s ∧ s ≤ baseFontSize ∧ fits s = true) →
      fits (fitFontSize baseFontSize 10 fits) = true ∧
      ∀ s, 10 ≤ s → s ≤ baseFontSize → fits s = true → s ≤ fitFontSize baseFontSize 10 fits) ∧
    ((∀ s, 10 ≤ s → s ≤ baseFontSize → fits s = false) →
      fitFontSize baseFontSize 10 fits = 10) := by
  obtain ⟨h1, h2, h3, h4⟩ := shrinkLoop_spec fits 10 baseFontSize h
  simp only [fitFontSize]
  refine ⟨h1, h2, ?_, ?_⟩
  · rintro ⟨s, hs1, hs2, hs3⟩
    have hlargest : ∀ s, 10 ≤ s → s ≤ baseFontSize → fits s = true →
        s ≤ shrinkLoop fits 10 baseFontSize := by
      intro t _ ht2 ht3
      by_contra hlt
      have := h4 t (by omega) ht2
      rw [this] at ht3
      cases ht3
    refine ⟨?_, hlargest⟩
    rcases h3 with h3 | h3
    · exact h3
    · have := hlargest s hs1 hs2 hs3
      have hs : s = shrinkLoop fits 10 baseFontSize := by omega
      rw [← hs]
      exact hs3
  · intro hnone
    rcases h3 with h3 | h3
    · have := hnone _ h1 h2
      rw [this] at h3
      cases h3
    · exact h3

/-- The two examples of C4: `fitFontSize(20, 10, size => size <= 14)` is 14 and
`fitFontSize(20, 10, size => false)` is 10. -/
theorem fitFontSize_examples :
    fitFontSize 20 10 (fun size => decide (size ≤ 14)) = 14 ∧
    fitFontSize 20 10 (fun _ => false) = 10 := by
  decide

/-- Witness of C4: from 20, with the sizes up to 14 fitting, the loop returns 14, which fits
and is the largest fitting size. -/
theorem fitFontSize_largest_witness :
    10 ≤ 20 ∧ fitFontSize 20 10 (fun size => decide (size ≤ 14)) = 14 ∧
    ∀ s, 10 ≤ s → s ≤ 20 → decide (s ≤ 14) = true →
      s ≤ fitFontSize 20 10 (fun size => decide (size ≤ 14)) :=
  ⟨by decide, by decide,
    ((fitFontSize_largest 20 (fun size => decide (size ≤ 14)) (by decide)).2.2.1
      ⟨14, by decide, by decide, by decide⟩).2⟩

/-! ## Layout generator: a batch computed with rounding -/

theorem sampleLoop_accept (rand : ℕ → JSNumber) (positions : List Rect) (budget k : ℕ)
    (h : ∀ p ∈ positions, rectsOverlap p (candidateAt rand k) = false) :
    sampleLoop rand positions (budget + 1) k = (some (candidateAt rand k), k + 2) := by
  have hany : positions.any (fun p => rectsOverlap p (candidateAt rand k)) = false := by
    rw [List.any_eq_false]
    intro p hp
    simp [h p hp]
  simp [sampleLoop, hany]

theorem exampleRand_range (k : ℕ) :
    ∃ q : ℚ, exampleRand k = JSNumber.fin q ∧ 0 ≤ q ∧ q < 1 := by
  unfold exampleRand
  split_ifs
  · exact ⟨_, rfl, by norm_num, by norm_num⟩
  · exact ⟨_, rfl, by norm_num, by norm_num⟩
  · exact ⟨_, rfl, by norm_num, by norm_num⟩

theorem JSNumber.ofRat_zero : JSNumber.ofRat 0 = JSNumber.fin 0 := by
  have := JSNumber.ofRat_int 0 (by norm_num)
  simpa using this

/-- The product `0.6000000000000001 * 80` is `48.00000000000001`. -/
theorem mul_example_left0 :
    (JSNumber.fin (1351079888211149 / 2251799813685248)).mul (JSNumber.fin 80) =
      JSNumber.fin (6755399441055745 / 140737488355328) := by
  have hr : roundDouble (1351079888211149 / 2251799813685248 * 80) =
      6755399441055745 / 140737488355328 := by
    rw [roundDouble_eq _ 5 6755399441055745 (by norm_num) (by norm_num) (by norm_num)
      (roundHalfEven_down _ _ (by norm_num) (by norm_num))]
    norm_num
  rw [JSNumber.mul_fin, JSNumber.ofRat_fin _ (by rw [hr, abs_of_nonneg (by norm_num)]; norm_num), hr]

/-- The product `0.85 * 80` is `68`: the exact product, just below `68`, is rounded up. -/
theorem mul_example_left2 :
    (JSNumber.fin (7656119366529843 / 9007199254740992)).mul (JSNumber.fin 80) =
      JSNumber.fin 68 := by
  have hr : roundDouble (7656119366529843 / 9007199254740992 * 80) = 68 := by
    rw [roundDouble_eq _ 6 (4785074604081151 + 1) (by norm_num) (by norm_num) (by norm_num)
      (roundHalfEven_up _ _ (by norm_num) (by norm_num))]
    norm_num
  rw [JSNumber.mul_fin, JSNumber.ofRat_fin _ (by rw [hr, abs_of_nonneg (by norm_num)]; norm_num), hr]

/-- The sum `0.7 + 30` is `30.7`. -/
theorem add_example_top :
    (JSNumber.fin (3152519739159347 / 4503599627370496)).add (JSNumber.fin 30) =
      JSNumber.fin (8641281785017139 / 281474976710656) := by
  have hr : roundDouble (3152519739159347 / 4503599627370496 + 30) =
      8641281785017139 / 281474976710656 := by
    rw [roundDouble_eq _ 4 8641281785017139 (by norm_num) (by norm_num) (by norm_num)
      (roundHalfEven_down _ _ (by norm_num) (by norm_num))]
    norm_num
  rw [JSNumber.add_fin, JSNumber.ofRat_fin _ (by rw [hr, abs_of_nonneg (by norm_num)]; norm_num), hr]

theorem candidateAt_example0 : candidateAt exampleRand 0 = exampleFirst := by
  have htop : (JSNumber.fin 0).mul (JSNumber.fin 70) = JSNumber.fin 0 := by
    rw [JSNumber.mul_fin, zero_mul, JSNumber.ofRat_zero]
  have h0 : exampleRand 0 = JSNumber.fin (1351079888211149 / 2251799813685248) := by
    unfold exampleRand
    rw [if_pos rfl]
  have h1 : exampleRand (0 + 1) = JSNumber.fin 0 := by
    unfold exampleRand
    rw [if_neg (by decide), if_neg (by decide)]
  unfold candidateAt
  rw [hundred_sub_CARD_W, hundred_sub_CARD_H, h0, h1, mul_example_left0, htop]
  rfl

theorem candidateAt_example2 : candidateAt exampleRand 2 = exampleSecond := by
  have htop : (JSNumber.fin 0).mul (JSNumber.fin 70) = JSNumber.fin 0 := by
    rw [JSNumber.mul_fin, zero_mul, JSNumber.ofRat_zero]
  have h3 : exampleRand (2 + 1) = JSNumber.fin 0 := by
    unfold exampleRand
    rw [if_neg (by decide), if_neg (by decide)]
  have h2 : exampleRand 2 = JSNumber.fin (7656119366529843 / 9007199254740992) := by
    unfold exampleRand
    rw [if_neg (by decide), if_pos rfl]
  unfold candidateAt
  rw [hundred_sub_CARD_W, hundred_sub_CARD_H, h2, h3, mul_example_left2, htop]
  rfl

/-- On the draws `0.6000000000000001, 0, 0.85, 0` the second card, at `left = 68`, is accepted
next to the first one, at `left = 48.00000000000001`: the rounded sum
`48.00000000000001 + 20` is `68`. -/
theorem exampleBatch :
    generatePositionsTagged exampleRand 2 = [(exampleFirst, true), (exampleSecond, true)] := by
  have s0 : sampleLoop exampleRand [] MAX_TRIES 0 = (some (candidateAt exampleRand 0), 2) :=
    sampleLoop_accept exampleRand [] 199 0 (by simp)
  have s2 : sampleLoop exampleRand [candidateAt exampleRand 0] MAX_TRIES 2 =
      (some (candidateAt exampleRand 2), 4) := by
    apply sampleLoop_accept exampleRand _ 199 2
    intro p hp
    simp only [List.mem_singleton] at hp
    subst hp
    rw [candidateAt_example0, candidateAt_example2]
    have hge : (JSNumber.fin 68).ge (JSNumber.fin 68) = true := by
      rw [JSNumber.ge_fin]
    unfold rectsOverlap exampleFirst exampleSecond
    simp only [add_tie_sixtyEight, hge, Bool.true_or, Bool.not_true]
  rw [candidateAt_example0] at s0 s2
  rw [candidateAt_example2] at s2
  simp only [generatePositionsTagged, generateLoop, List.map_nil, s0, List.nil_append,
    List.map_cons, s2, List.singleton_append]

/-- Witness of C2 on the sample stream, for a batch of two sampled rectangles. -/
theorem generatePositions_accepted_disjoint_witness :
    (0 < 1 ∧
      (generatePositions exampleRand 2)[0]? = some exampleFirst ∧
      (generatePositions exampleRand 2)[1]? = some exampleSecond ∧
      ((generatePositionsTagged exampleRand 2).map Prod.snd)[0]? = some true ∧
      ((generatePositionsTagged exampleRand 2).map Prod.snd)[1]? = some true) ∧
    rectsOverlap exampleFirst exampleSecond = false :=
  have h0 : (generatePositions exampleRand 2)[0]? = some exampleFirst := by
    simp [generatePositions, exampleBatch]
  have h1 : (generatePositions exampleRand 2)[1]? = some exampleSecond := by
    simp [generatePositions, exampleBatch]
  have f0 : ((generatePositionsTagged exampleRand 2).map Prod.snd)[0]? = some true := by
    simp [exampleBatch]
  have f1 : ((generatePositionsTagged exampleRand 2).map Prod.snd)[1]? = some true := by
    simp [exampleBatch]
  ⟨⟨by decide, h0, h1, f0, f1⟩,
    (generatePositions_accepted_disjoint exampleRand 2 0 1 _ _ true true (by decide)
      h0 h1 f0 f1).1 rfl⟩

/-- Witness of C3 on the sample stream: the card at `left = 68`. -/
theorem generatePositions_inBounds_witness :
    (∀ k, ∃ q : ℚ, exampleRand k = JSNumber.fin q ∧ 0 ≤ q ∧ q < 1) ∧
    exampleSecond ∈ generatePositions exampleRand 2 ∧
    exampleSecond.left.le ((JSNumber.fin 100).sub (JSNumber.fin 20)) = true :=
  have hmem : exampleSecond ∈ generatePositions exampleRand 2 := by
    simp [generatePositions, exampleBatch]
  ⟨exampleRand_range, hmem,
    (generatePositions_inBounds exampleRand 2 exampleRand_range _ hmem).2.2.2.1⟩

/-- Witness of C9: a card at `top = 0.7` and a card at `top = 30.7`, which is the rounded sum
`0.7 + 30`. -/
theorem rectsOverlap_touching_witness :
    lowerCard.top.strictEq (upperCard.top.add upperCard.height) = true ∧
    rectsOverlap upperCard lowerCard = false ∧ rectsOverlap lowerCard upperCard = false :=
  have heq : lowerCard.top.strictEq (upperCard.top.add upperCard.height) = true := by
    show (JSNumber.fin (8641281785017139 / 281474976710656)).strictEq
      ((JSNumber.fin (3152519739159347 / 4503599627370496)).add (JSNumber.fin 30)) = true
    rw [add_example_top]
    simp [JSNumber.strictEq]
  ⟨heq, rectsOverlap_touching upperCard lowerCard (Or.inr (Or.inr (Or.inl heq)))⟩

/-! ## Description analyser: whitespace normalisation -/

theorem WsSingle_cons (c : ℕ) (rest : JSString) :
    WsSingle (c :: rest) ↔
      (isWhitespace c = true → c = SPACE ∧ ∀ d, rest.head? = some d → isWhitespace d = false) ∧
        WsSingle rest :=
  Iff.rfl

theorem replaceWsLoop_ws_true (c : ℕ) (rest : JSString) (hc : isWhitespace c = true) :
    replaceWsLoop true (c :: rest) = replaceWsLoop true rest := by
  simp [replaceWsLoop, hc]

theorem replaceWsLoop_ws_false (c : ℕ) (rest : JSString) (hc : isWhitespace c = true) :
    replaceWsLoop false (c :: rest) = SPACE :: replaceWsLoop true rest := by
  simp [replaceWsLoop, hc]

theorem replaceWsLoop_not_ws (b : Bool) (c : ℕ) (rest : JSString)
    (hc : isWhitespace c = false) :
    replaceWsLoop b (c :: rest) = c :: replaceWsLoop false rest := by
  simp [replaceWsLoop, hc]

theorem replaceWsLoop_single (b : Bool) (s : JSString) :
    WsSingle (replaceWsLoop b s) ∧
      (b = true → ∀ c, (replaceWsLoop b s).head? = some c → isWhitespace c = false) := by
  induction s generalizing b with
  | nil => exact ⟨trivial, fun _ c hc => by simp [replaceWsLoop] at hc⟩
  | cons c rest ih =>
    cases hc : isWhitespace c with
    | true =>
      cases b with
      | true =>
        rw [replaceWsLoop_ws_true c rest hc]
        exact ih true
      | false =>
        rw [replaceWsLoop_ws_false c rest hc, WsSingle_cons]
        exact ⟨⟨fun _ => ⟨rfl, (ih true).2 rfl⟩, (ih true).1⟩, fun h => by cases h⟩
    | false =>
      rw [replaceWsLoop_not_ws b c rest hc, WsSingle_cons]
      refine ⟨⟨fun h => (by rw [hc] at h; cases h), (ih false).1⟩, ?_⟩
      intro _ d hd
      simp only [List.head?_cons, Option.some.injEq] at hd
      subst hd
      exact hc

theorem WsSingle_dropWhile (s : JSString) (h : WsSingle s) :
    WsSingle (s.dropWhile isWhitespace) := by
  induction s with
  | nil => simpa using h
  | cons c rest ih =>
    by_cases hc : isWhitespace c = true
    · rw [List.dropWhile_cons_of_pos hc]
      exact ih h.2
    · rw [List.dropWhile_cons_of_neg hc]
      exact h

theorem WsSingle_prefix (l₁ l₂ : JSString) (h : WsSingle (l₁ ++ l₂)) : WsSingle l₁ := by
  induction l₁ with
  | nil => trivial
  | cons c rest ih =>
    rw [List.cons_append, WsSingle_cons] at h
    rw [WsSingle_cons]
    refine ⟨fun hc => ⟨(h.1 hc).1, ?_⟩, ih h.2⟩
    intro d hd
    apply (h.1 hc).2 d
    cases rest with
    | nil => cases hd
    | cons e rest' => exact hd

theorem WsSingle_append_singleton (l : JSString) (e : ℕ) (h : WsSingle l)
    (he : isWhitespace e = false) : WsSingle (l ++ [e]) := by
  induction l with
  | nil =>
    rw [List.nil_append, WsSingle_cons]
    refine ⟨fun h' => ?_, trivial⟩
    rw [he] at h'
    cases h'
  | cons c rest ih =>
    rw [WsSingle_cons] at h
    rw [List.cons_append, WsSingle_cons]
    refine ⟨fun hc => ⟨(h.1 hc).1, ?_⟩, ih h.2⟩
    intro d hd
    cases rest with
    | nil =>
      simp only [List.nil_append, List.head?_cons, Option.some.injEq] at hd
      subst hd
      exact he
    | cons e' rest' =>
      apply (h.1 hc).2 d
      exact hd

theorem trim_eq_rdropWhile (s : JSString) :
    trim s = List.rdropWhile isWhitespace (s.dropWhile isWhitespace) := rfl

theorem trim_noEdgeWs (s : JSString) : NoEdgeWs (trim s) := by
  rw [trim_eq_rdropWhile]
  constructor
  · intro c hc
    obtain ⟨l₂, hl₂⟩ := List.rdropWhile_prefix isWhitespace (l := s.dropWhile isWhitespace)
    have hh := List.head?_dropWhile_not isWhitespace s
    rw [← hl₂] at hh
    cases hr : List.rdropWhile isWhitespace (s.dropWhile isWhitespace) with
    | nil => rw [hr] at hc; simp at hc
    | cons e r =>
      rw [hr] at hc hh
      simp only [List.head?_cons, Option.some.injEq] at hc
      subst hc
      simpa using hh
  · intro c hc
    have hne : List.rdropWhile isWhitespace (s.dropWhile isWhitespace) ≠ [] := by
      intro h0
      rw [h0] at hc
      simp at hc
    have := List.rdropWhile_last_not isWhitespace _ hne
    rw [List.getLast?_eq_getLast _ hne] at hc
    simp only [Option.some.injEq] at hc
    rw [hc] at this
    simpa using this

theorem trim_wsSingle (s : JSString) (h : WsSingle s) : WsSingle (trim s) := by
  rw [trim_eq_rdropWhile]
  obtain ⟨l₂, hl₂⟩ := List.rdropWhile_prefix isWhitespace (l := s.dropWhile isWhitespace)
  apply WsSingle_prefix _ l₂
  rw [hl₂]
  exact WsSingle_dropWhile s h

theorem trim_eq_self (p : JSString) (h : NoEdgeWs p) : trim p = p := by
  rw [trim_eq_rdropWhile]
  have h1 : p.dropWhile isWhitespace = p := by
    cases p with
    | nil => rfl
    | cons c rest =>
      have := h.1 c rfl
      rw [List.dropWhile_cons_of_neg (by simp [this])]
  rw [h1, List.rdropWhile_eq_self_iff]
  intro hl
  have := h.2 (p.getLast hl) (List.getLast?_eq_getLast _ hl)
  simp [this]

theorem normalize_clean (s : JSString) : Clean (normalize s) :=
  ⟨trim_wsSingle _ (replaceWsLoop_single false s).1, trim_noEdgeWs _⟩

theorem replaceWsLoop_length (b : Bool) (s : JSString) :
    (replaceWsLoop b s).length ≤ s.length := by
  induction s generalizing b with
  | nil => simp [replaceWsLoop]
  | cons c rest ih =>
    simp only [replaceWsLoop]
    split
    · split
      · exact Nat.le_succ_of_le (ih true)
      · simpa using ih true
    · simpa using ih false

theorem trim_length (s : JSString) : (trim s).length ≤ s.length := by
  rw [trim_eq_rdropWhile]
  have h1 := (List.rdropWhile_prefix isWhitespace (l := s.dropWhile isWhitespace)).length_le
  have h2 := (List.dropWhile_sublist isWhitespace (l := s)).length_le
  omega

theorem normalize_length (s : JSString) : (normalize s).length ≤ s.length :=
  le_trans (trim_length _) (replaceWsLoop_length false s)

/-! ## Description analyser: truncation -/

theorem isWhitespace_ELLIPSIS : isWhitespace ELLIPSIS = false := by decide

theorem truncateText_of_le (t : JSString) (h : t.length ≤ 900) : truncateText t = t := by
  unfold truncateText sizeTier
  by_cases h1 : t.length ≤ 350
  · simp only [h1, if_true]
    rw [if_neg (by omega), List.take_of_length_le h1]
  · by_cases h2 : t.length ≤ 800
    · simp only [h1, h2, if_true, if_false]
      rw [if_neg (by omega), List.take_of_length_le h2]
    · simp only [h1, h2, if_false]
      rw [if_neg (by omega), List.take_of_length_le h]

theorem truncateText_of_gt (t : JSString) (h : 900 < t.length) :
    truncateText t = t.take 900 ++ [ELLIPSIS] := by
  have hs : sizeTier t.length = (16, 900) := by
    unfold sizeTier
    rw [if_neg (by omega), if_neg (by omega)]
  unfold truncateText
  simp only [hs]
  rw [if_pos h]

theorem truncateText_clean (t : JSString) (h : Clean t) : Clean (truncateText t) := by
  rcases Nat.lt_or_ge 900 t.length with hlt | hge
  · rw [truncateText_of_gt t hlt]
    refine ⟨?_, ?_, ?_⟩
    · apply WsSingle_append_singleton _ _ _ isWhitespace_ELLIPSIS
      apply WsSingle_prefix _ (t.drop 900)
      rw [List.take_append_drop]
      exact h.1
    · intro c hc
      apply h.2.1 c
      cases t with
      | nil => simp at hlt
      | cons d rest => simpa using hc
    · intro c hc
      rw [List.getLast?_concat] at hc
      cases hc
      exact isWhitespace_ELLIPSIS
  · rw [truncateText_of_le t hge]
    exact h

/-! ## Description analyser: sentence splitting -/

theorem joinSpace_cons_cons (p q : JSString) (rest : List JSString) :
    joinSpace (p :: q :: rest) = p ++ SPACE :: joinSpace (q :: rest) := rfl

theorem joinSpace_consHead (c : ℕ) (p : JSString) (ps : List JSString) :
    joinSpace (consHead c (p :: ps)) = c :: joinSpace (p :: ps) := by
  cases ps with
  | nil => rfl
  | cons q rest => rfl

theorem splitLoop_not_ws (b₁ b₂ : Bool) (c : ℕ) (rest : JSString)
    (hc : isWhitespace c = false) :
    splitLoop b₁ b₂ (c :: rest) = consHead c (splitLoop false (isTerminator c) rest) := by
  simp [splitLoop, hc]

theorem splitLoop_ws_plain (c : ℕ) (rest : JSString) (hc : isWhitespace c = true) :
    splitLoop false false (c :: rest) = consHead c (splitLoop false false rest) := by
  simp [splitLoop, hc]

theorem splitLoop_ws_sep (c : ℕ) (rest : JSString) (hc : isWhitespace c = true) :
    splitLoop false true (c :: rest) = [] :: splitLoop true false rest := by
  simp [splitLoop, hc]

/-- On a string whose whitespace is single spaces, not at the end, the pieces of the split
joined by single spaces give the string back; every piece but the first is non-empty and has
no whitespace at either end; the first piece does not end with whitespace and starts like the
string when the string starts without whitespace. -/
theorem splitLoop_single (t : JSString) (afterTerm : Bool) (h : WsSingle t)
    (hlast : ∀ c, t.getLast? = some c → isWhitespace c = false) :
    ∃ p ps, splitLoop false afterTerm t = p :: ps ∧ joinSpace (p :: ps) = t ∧
      (∀ q ∈ ps, q ≠ [] ∧ NoEdgeWs q) ∧
      (∀ c, p.getLast? = some c → isWhitespace c = false) ∧
      (∀ c, t.head? = some c → isWhitespace c = false → p.head? = some c) := by
  induction t generalizing afterTerm with
  | nil =>
    exact ⟨[], [], rfl, rfl, by simp, by simp, by simp⟩
  | cons c rest ih =>
    rw [WsSingle_cons] at h
    have hlast' : ∀ d, rest.getLast? = some d → isWhitespace d = false := by
      intro d hd
      apply hlast d
      cases rest with
      | nil => cases hd
      | cons e r => rw [List.getLast?_cons_cons]; exact hd
    cases hc : isWhitespace c with
    | false =>
      obtain ⟨p, ps, hsplit, hjoin, hgood, hpl, -⟩ := ih (isTerminator c) h.2 hlast'
      refine ⟨c :: p, ps, ?_, ?_, hgood, ?_, ?_⟩
      · rw [splitLoop_not_ws _ _ c rest hc, hsplit]
        rfl
      · have := joinSpace_consHead c p ps
        rw [hjoin] at this
        exact this
      · intro d hd
        cases p with
        | nil =>
          simp only [List.getLast?_singleton, Option.some.injEq] at hd
          subst hd
          exact hc
        | cons e r =>
          rw [List.getLast?_cons_cons] at hd
          exact hpl d hd
      · intro d hd _
        exact hd
    | true =>
      obtain ⟨hcs, hnext⟩ := h.1 hc
      obtain ⟨e, r, hrest⟩ : ∃ e r, rest = e :: r := by
        cases rest with
        | nil =>
          have := hlast c rfl
          rw [hc] at this
          cases this
        | cons e r => exact ⟨e, r, rfl⟩
      have he : isWhitespace e = false := hnext e (by rw [hrest]; rfl)
      obtain ⟨p, ps, hsplit, hjoin, hgood, hpl, hph⟩ := ih false h.2 hlast'
      have hpe : p.head? = some e := hph e (by rw [hrest]; rfl) he
      have hpne : p ≠ [] := by
        intro h0
        rw [h0] at hpe
        cases hpe
      cases afterTerm with
      | false =>
        refine ⟨c :: p, ps, ?_, ?_, hgood, ?_, ?_⟩
        · rw [splitLoop_ws_plain c rest hc, hsplit]
          rfl
        · have := joinSpace_consHead c p ps
          rw [hjoin] at this
          exact this
        · intro d hd
          cases p with
          | nil => exact absurd rfl hpne
          | cons e' r' =>
            rw [List.getLast?_cons_cons] at hd
            exact hpl d hd
        · intro d hd hd'
          simp only [List.head?_cons, Option.some.injEq] at hd
          subst hd
          rw [hc] at hd'
          cases hd'
      | true =>
        have hsame : splitLoop true false rest = splitLoop false false rest := by
          rw [hrest, splitLoop_not_ws true false e r he, splitLoop_not_ws false false e r he]
        refine ⟨[], p :: ps, ?_, ?_, ?_, by simp, ?_⟩
        · rw [splitLoop_ws_sep c rest hc, hsame, hsplit]
        · rw [joinSpace_cons_cons, hjoin, hcs]
          rfl
        · intro q hq
          rcases List.mem_cons.1 hq with hq | hq
          · subst hq
            refine ⟨hpne, ?_, hpl⟩
            intro d hd
            rw [hpe] at hd
            cases hd
            exact he
          · exact hgood q hq
        · intro d hd hd'
          simp only [List.head?_cons, Option.some.injEq] at hd
          subst hd
          rw [hc] at hd'
          cases hd'

/-- The sentences of a whitespace-normalised text: joined by single spaces they give the text
back, none has whitespace at either end, and none is empty unless the text is empty. -/
theorem splitSentences_clean (t : JSString) (h : Clean t) :
    joinSpace (splitSentences t) = t ∧ (∀ q ∈ splitSentences t, NoEdgeWs q) ∧
      (t ≠ [] → ∀ q ∈ splitSentences t, q ≠ []) := by
  obtain ⟨p, ps, hsplit, hjoin, hgood, hpl, hph⟩ := splitLoop_single t false h.1 h.2.2
  unfold splitSentences
  rw [hsplit]
  refine ⟨hjoin, ?_, ?_⟩
  · intro q hq
    rcases List.mem_cons.1 hq with hq | hq
    · subst hq
      refine ⟨?_, hpl⟩
      intro d hd
      cases t with
      | nil =>
        simp only [splitLoop, List.cons.injEq] at hsplit
        rw [← hsplit.1] at hd
        cases hd
      | cons e r =>
        cases he : isWhitespace e with
        | false =>
          have := hph e rfl he
          rw [this] at hd
          cases hd
          exact he
        | true =>
          have := h.2.1 e rfl
          rw [he] at this
          cases this
    · exact (hgood q hq).2
  · intro hne q hq
    rcases List.mem_cons.1 hq with hq | hq
    · subst hq
      cases t with
      | nil => exact absurd rfl hne
      | cons e r =>
        have := hph e rfl (h.2.1 e rfl)
        intro h0
        rw [h0] at this
        cases this
    · exact (hgood q hq).1

/-! ## Description analyser: paragraph packing -/

theorem noEdgeWs_join (a b : JSString) (ha : NoEdgeWs a) (hb : NoEdgeWs b) (hane : a ≠ [])
    (hbne : b ≠ []) : NoEdgeWs (a ++ [SPACE] ++ b) := by
  constructor
  · intro c hc
    apply ha.1 c
    cases a with
    | nil => exact absurd rfl hane
    | cons d r => exact hc
  · intro c hc
    apply hb.2 c
    rw [List.getLast?_append_of_ne_nil _ hbne] at hc
    exact hc

theorem flushCurrent_good (st : List JSString × JSString) (h : GoodState st) :
    flushCurrent st = if st.2 ≠ [] then st.1 ++ [st.2] else [] := by
  unfold flushCurrent
  by_cases h2 : st.2 = []
  · simp [h2, h.2 h2]
  · simp [h2, trim_eq_self _ h.1]

theorem packStep_nil (st : List JSString × JSString) : packStep st [] = st := by
  simp [packStep]

theorem packStep_good (st : List JSString × JSString) (s : JSString) (h : GoodState st)
    (hs : NoEdgeWs s) : GoodState (packStep st s) := by
  unfold packStep
  by_cases hs0 : s = []
  · simpa [hs0] using h
  · rw [if_neg hs0]
    split
    · exact ⟨hs, fun h0 => absurd h0 hs0⟩
    · by_cases h2 : st.2 = []
      · rw [if_neg (by simpa using h2)]
        exact ⟨hs, fun h0 => absurd h0 hs0⟩
      · rw [if_pos h2]
        exact ⟨noEdgeWs_join _ _ h.1 hs h2 hs0, fun h0 => by simp at h0⟩

theorem joinSpace_merge (A : List JSString) (x y : JSString) (R : List JSString) :
    joinSpace (A ++ (x ++ [SPACE] ++ y) :: R) = joinSpace (A ++ x :: y :: R) := by
  induction A with
  | nil =>
    cases R with
    | nil => simp [joinSpace]
    | cons r R' => simp [joinSpace_cons_cons]
  | cons a A' ih =>
    cases A' with
    | nil =>
      simp only [List.cons_append, List.nil_append, joinSpace_cons_cons] at ih ⊢
      rw [ih]
    | cons b B =>
      simp only [List.cons_append, joinSpace_cons_cons] at ih ⊢
      rw [ih]

/-- One step of the packing does not change the text obtained by joining the paragraphs, the
current paragraph and the sentences still to come. -/
theorem packStep_join (st : List JSString × JSString) (s : JSString) (R : List JSString)
    (h : GoodState st) (hs : NoEdgeWs s) (hs0 : s ≠ []) :
    joinSpace (flushCurrent (packStep st s) ++ R) = joinSpace (flushCurrent st ++ s :: R) := by
  have hg := packStep_good st s h hs
  rw [flushCurrent_good _ hg, flushCurrent_good _ h]
  unfold packStep
  rw [if_neg hs0]
  by_cases hlen : (st.2 ++ [SPACE] ++ s).length > 280
  · rw [if_pos hlen]
    simp only [ne_eq, hs0, not_false_eq_true, if_true]
    rw [flushCurrent_good _ h]
    by_cases h2 : st.2 = []
    · simp [h2]
    · simp [h2]
  · rw [if_neg hlen]
    by_cases h2 : st.2 = []
    · simp [h2, hs0, h.2 h2]
    · simp only [ne_eq, h2, not_false_eq_true, if_true]
      rw [if_pos (by simp)]
      simp only [List.append_assoc, List.singleton_append]
      have := joinSpace_merge st.1 st.2 s R
      simpa using this

theorem nonEmpties_cons_nil (ss : List JSString) : nonEmpties ([] :: ss) = nonEmpties ss := by
  simp [nonEmpties]

theorem nonEmpties_cons (s : JSString) (ss : List JSString) (hs : s ≠ []) :
    nonEmpties (s :: ss) = s :: nonEmpties ss := by
  simp [nonEmpties, hs]

theorem foldl_packStep_good (ss : List JSString) (st : List JSString × JSString)
    (h : GoodState st) (hss : ∀ s ∈ ss, NoEdgeWs s) : GoodState (ss.foldl packStep st) := by
  induction ss generalizing st with
  | nil => exact h
  | cons s ss' ih =>
    rw [List.foldl_cons]
    exact ih _ (packStep_good st s h (hss s (List.mem_cons_self _ _)))
      (fun q hq => hss q (List.mem_cons_of_mem _ hq))

/-- Packing loses and reorders nothing: the paragraphs after the final flush, joined by single
spaces, are the paragraphs flushed from the start state followed by the non-empty sentences,
joined by single spaces. -/
theorem foldl_packStep_join (ss : List JSString) (st : List JSString × JSString)
    (h : GoodState st) (hss : ∀ s ∈ ss, NoEdgeWs s) :
    joinSpace (flushCurrent (ss.foldl packStep st)) =
      joinSpace (flushCurrent st ++ nonEmpties ss) := by
  induction ss generalizing st with
  | nil => simp [nonEmpties]
  | cons s ss' ih =>
    rw [List.foldl_cons]
    have hs := hss s (List.mem_cons_self _ _)
    have hss' : ∀ q ∈ ss', NoEdgeWs q := fun q hq => hss q (List.mem_cons_of_mem _ hq)
    by_cases hs0 : s = []
    · subst hs0
      rw [packStep_nil, nonEmpties_cons_nil]
      exact ih st h hss'
    · rw [ih _ (packStep_good st s h hs) hss', nonEmpties_cons s ss' hs0]
      exact packStep_join st s _ h hs hs0

theorem packParagraphs_join (ss : List JSString) (hss : ∀ s ∈ ss, NoEdgeWs s) :
    joinSpace (packParagraphs ss) = joinSpace (nonEmpties ss) := by
  unfold packParagraphs
  rw [foldl_packStep_join ss ([], []) ⟨⟨by simp, by simp⟩, fun _ => rfl⟩ hss]
  simp [flushCurrent]

theorem foldl_packStep_paraOk (all ss : List JSString) (st : List JSString × JSString)
    (h : GoodState st) (h1 : ∀ p ∈ st.1, ParaOk all p) (h2 : st.2 ≠ [] → ParaOk all st.2)
    (hss : ∀ s ∈ ss, NoEdgeWs s ∧ s ∈ all) :
    (∀ p ∈ (ss.foldl packStep st).1, ParaOk all p) ∧
      ((ss.foldl packStep st).2 ≠ [] → ParaOk all (ss.foldl packStep st).2) := by
  induction ss generalizing st with
  | nil => exact ⟨h1, h2⟩
  | cons s ss' ih =>
    rw [List.foldl_cons]
    have hs := hss s (List.mem_cons_self _ _)
    have hss' : ∀ q ∈ ss', NoEdgeWs q ∧ q ∈ all := fun q hq => hss q (List.mem_cons_of_mem _ hq)
    have hflush : ∀ p ∈ flushCurrent st, ParaOk all p := by
      intro p hp
      rw [flushCurrent_good _ h] at hp
      by_cases h0 : st.2 = []
      · simp [h0] at hp
      · simp only [ne_eq, h0, not_false_eq_true, if_true, List.mem_append,
          List.mem_singleton] at hp
        rcases hp with hp | hp
        · exact h1 p hp
        · subst hp
          exact h2 h0
    apply ih _ (packStep_good st s h hs.1) _ _ hss'
    · unfold packStep
      by_cases hs0 : s = []
      · rw [if_pos hs0]
        exact h1
      · rw [if_neg hs0]
        split
        · exact hflush
        · exact h1
    · unfold packStep
      by_cases hs0 : s = []
      · rw [if_pos hs0]
        exact h2
      · rw [if_neg hs0]
        intro _
        split
        · exact ⟨hs0, Or.inl hs.2⟩
        · rename_i hlen
          by_cases h0 : st.2 = []
          · rw [if_neg (by simpa using h0)]
            exact ⟨hs0, Or.inl hs.2⟩
          · rw [if_pos h0]
            exact ⟨by simp, Or.inr (Nat.le_of_not_gt hlen)⟩

/-- Every packed paragraph is non-empty and is one of the sentences or has at most 280 code
units. -/
theorem packParagraphs_paraOk (ss : List JSString) (hss : ∀ s ∈ ss, NoEdgeWs s) :
    ∀ p ∈ packParagraphs ss, ParaOk ss p := by
  have hg0 : GoodState (([], []) : List JSString × JSString) :=
    ⟨⟨by simp, by simp⟩, fun _ => rfl⟩
  have hg := foldl_packStep_good ss _ hg0 hss
  obtain ⟨h1, h2⟩ := foldl_packStep_paraOk ss ss ([], []) hg0 (by simp) (by simp)
    (fun s hs => ⟨hss s hs, hs⟩)
  intro p hp
  unfold packParagraphs at hp
  rw [flushCurrent_good _ hg] at hp
  by_cases h0 : (ss.foldl packStep ([], [])).2 = []
  · simp [h0] at hp
  · simp only [ne_eq, h0, not_false_eq_true, if_true, List.mem_append, List.mem_singleton] at hp
    rcases hp with hp | hp
    · exact h1 p hp
    · subst hp
      exact h2 h0

theorem joinSpace_cons_length (s : JSString) (R : List JSString) :
    s.length ≤ (joinSpace (s :: R)).length := by
  cases R with
  | nil => exact le_refl _
  | cons r R' =>
    rw [joinSpace_cons_cons]
    simp

/-- When everything fits in 280 code units, the loop keeps `paragraphs` empty and accumulates
all the non-empty sentences in `current`. -/
theorem foldl_packStep_short (ss : List JSString) (cur : JSString)
    (hlen : (joinSpace ((if cur ≠ [] then [cur] else []) ++ nonEmpties ss)).length ≤ 280) :
    ss.foldl packStep ([], cur) =
      ([], joinSpace ((if cur ≠ [] then [cur] else []) ++ nonEmpties ss)) := by
  induction ss generalizing cur with
  | nil =>
    by_cases h0 : cur = []
    · simp [h0, nonEmpties, joinSpace]
    · simp [h0, nonEmpties, joinSpace]
  | cons s ss' ih =>
    rw [List.foldl_cons]
    by_cases hs0 : s = []
    · subst hs0
      rw [packStep_nil, nonEmpties_cons_nil]
      rw [nonEmpties_cons_nil] at hlen
      exact ih cur hlen
    · rw [nonEmpties_cons s ss' hs0] at hlen ⊢
      by_cases h0 : cur = []
      · subst h0
        have hstep : packStep ([], []) s = ([], s) := by
          unfold packStep flushCurrent
          rw [if_neg hs0]
          split <;> simp
        simp only [ne_eq, not_true_eq_false, if_false, List.nil_append] at hlen ⊢
        rw [hstep, ih s (by simpa [hs0] using hlen)]
        simp [hs0]
      · simp only [ne_eq, h0, not_false_eq_true, if_true, List.singleton_append] at hlen ⊢
        have hb := joinSpace_cons_length s (nonEmpties ss')
        have hfit : ¬ (cur ++ [SPACE] ++ s).length > 280 := by
          rw [joinSpace_cons_cons] at hlen
          simp only [List.length_append, List.length_cons, List.length_nil] at hlen ⊢
          omega
        have hstep : packStep ([], cur) s = ([], cur ++ [SPACE] ++ s) := by
          unfold packStep
          rw [if_neg hs0, if_neg hfit]
          simp [h0]
        have hm := joinSpace_merge [] cur s (nonEmpties ss')
        simp only [List.nil_append] at hm
        have hne : cur ++ [SPACE] ++ s ≠ [] := by simp
        rw [hstep, ih (cur ++ [SPACE] ++ s)
          (by rw [if_pos hne, List.singleton_append, hm]; exact hlen)]
        rw [if_pos hne, List.singleton_append, hm]

/-- Sentences whose join has at most 280 code units are packed into the single paragraph made
of that join. -/
theorem packParagraphs_short (ss : List JSString) (hss : ∀ s ∈ ss, NoEdgeWs s)
    (hlen : (joinSpace (nonEmpties ss)).length ≤ 280) (hne : joinSpace (nonEmpties ss) ≠ []) :
    packParagraphs ss = [joinSpace (nonEmpties ss)] := by
  have hg0 : GoodState (([], []) : List JSString × JSString) :=
    ⟨⟨by simp, by simp⟩, fun _ => rfl⟩
  have hg := foldl_packStep_good ss _ hg0 hss
  have hfold := foldl_packStep_short ss [] (by simpa using hlen)
  simp only [ne_eq, not_true_eq_false, if_false, List.nil_append] at hfold
  unfold packParagraphs
  rw [flushCurrent_good _ hg, hfold]
  simp [hne]

/-! ## Description analyser: the result -/

theorem makeDescriptionInfo_some (textContent : JSString → Option JSString) (h : JSString)
    (hne : h ≠ []) :
    makeDescriptionInfo textContent (some h) =
      { paragraphs := packParagraphs (splitSentences (truncateText (fullTextOf textContent h))),
        baseFontSize := (sizeTier (fullTextOf textContent h).length).1 } := by
  simp [makeDescriptionInfo, hne]

theorem fullTextOf_clean (textContent : JSString → Option JSString) (h : JSString) :
    Clean (fullTextOf textContent h) :=
  normalize_clean _

theorem nonEmpties_eq_self (ss : List JSString) (h : ∀ q ∈ ss, q ≠ []) : nonEmpties ss = ss := by
  unfold nonEmpties
  rw [List.filter_eq_self]
  intro q hq
  simpa using h q hq

/-- The paragraphs of a non-empty whitespace-normalised text, joined by single spaces, give the
text back. -/
theorem packParagraphs_splitSentences_join (t : JSString) (h : Clean t) :
    joinSpace (packParagraphs (splitSentences t)) = t := by
  obtain ⟨hjoin, hedge, hne⟩ := splitSentences_clean t h
  rw [packParagraphs_join _ hedge]
  by_cases h0 : t = []
  · subst h0
    rfl
  · rw [nonEmpties_eq_self _ (hne h0), hjoin]

/-- A non-empty whitespace-normalised text of at most 280 code units is packed into one
paragraph, the text itself. -/
theorem packParagraphs_splitSentences_short (t : JSString) (h : Clean t) (h0 : t ≠ [])
    (hlen : t.length ≤ 280) : packParagraphs (splitSentences t) = [t] := by
  obtain ⟨hjoin, hedge, hne⟩ := splitSentences_clean t h
  have hself := nonEmpties_eq_self _ (hne h0)
  have := packParagraphs_short (splitSentences t) hedge (by rw [hself, hjoin]; exact hlen)
    (by rw [hself, hjoin]; exact h0)
  rw [hself, hjoin] at this
  exact this

theorem splitLoop_noBreak (t : JSString) (afterTerm : Bool) (h : NoSentenceBreak t)
    (hhead : afterTerm = true → ∀ c, t.head? = some c → isWhitespace c = false) :
    splitLoop false afterTerm t = [t] := by
  induction t generalizing afterTerm with
  | nil => rfl
  | cons c rest ih =>
    have hrest : NoSentenceBreak rest := List.Chain'.tail h
    cases hc : isWhitespace c with
    | false =>
      rw [splitLoop_not_ws _ _ c rest hc, ih (isTerminator c) hrest]
      · rfl
      · intro hterm d hd
        cases rest with
        | nil => cases hd
        | cons e r =>
          simp only [List.head?_cons, Option.some.injEq] at hd
          subst hd
          have := (List.chain'_cons.1 h).1
          cases he : isWhitespace e with
          | false => rfl
          | true => exact absurd ⟨hterm, he⟩ this
    | true =>
      cases afterTerm with
      | true =>
        have := hhead rfl c rfl
        rw [hc] at this
        cases this
      | false =>
        rw [splitLoop_ws_plain c rest hc, ih false hrest (fun h' => by cases h')]
        rfl

theorem packParagraphs_single (t : JSString) (h : NoEdgeWs t) (h0 : t ≠ []) :
    packParagraphs [t] = [t] := by
  have hstep : packStep ([], []) t = ([], t) := by
    unfold packStep flushCurrent
    rw [if_neg h0]
    split <;> simp
  unfold packParagraphs
  rw [List.foldl_cons, List.foldl_nil, hstep]
  unfold flushCurrent
  simp [h0, trim_eq_self t h]

theorem joinSpace_concat_getLast (ps : List JSString) (p : JSString) (hp : p ≠ []) :
    (joinSpace (ps ++ [p])).getLast? = p.getLast? := by
  induction ps with
  | nil => rfl
  | cons a ps' ih =>
    obtain ⟨b, R, hbR⟩ : ∃ b R, ps' ++ [p] = b :: R := by
      cases ps' with
      | nil => exact ⟨p, [], rfl⟩
      | cons b R => exact ⟨b, R ++ [p], rfl⟩
    have hne : joinSpace (ps' ++ [p]) ≠ [] := by
      intro h0
      rw [h0] at ih
      rw [List.getLast?_eq_getLast _ hp] at ih
      cases ih
    rw [List.cons_append, hbR, joinSpace_cons_cons, ← hbR]
    rw [show a ++ SPACE :: joinSpace (ps' ++ [p]) = (a ++ [SPACE]) ++ joinSpace (ps' ++ [p]) by
      simp]
    rw [List.getLast?_append_of_ne_nil _ hne, ih]

/-- C5: `makeDescriptionInfo` returns `{paragraphs: [], baseFontSize: 18}` for `null` and for
the empty string; for every other input, with `L` the length of its whitespace-normalised
plain text, `baseFontSize` is 20 when `L <= 350`, 18 when `350 < L <= 800` and 16 when
`L > 800`. -/
theorem makeDescriptionInfo_baseFontSize (textContent : JSString → Option JSString)
    (h : JSString) (hne : h ≠ []) :
    makeDescriptionInfo textContent none = { paragraphs := [], baseFontSize := 18 } ∧
    makeDescriptionInfo textContent (some []) = { paragraphs := [], baseFontSize := 18 } ∧
    ((fullTextOf textContent h).length ≤ 350 →
      (makeDescriptionInfo textContent (some h)).baseFontSize = 20) ∧
    (350 < (fullTextOf textContent h).length → (fullTextOf textContent h).length ≤ 800 →
      (makeDescriptionInfo textContent (some h)).baseFontSize = 18) ∧
    (800 < (fullTextOf textContent h).length →
      (makeDescriptionInfo textContent (some h)).baseFontSize = 16) := by
  rw [makeDescriptionInfo_some textContent h hne]
  refine ⟨rfl, rfl, ?_, ?_, ?_⟩
  · intro h1
    simp [sizeTier, h1]
  · intro h1 h2
    simp [sizeTier, h2, Nat.not_le.2 h1]
  · intro h1
    have h2 : ¬ (fullTextOf textContent h).length ≤ 350 := by omega
    have h3 : ¬ (fullTextOf textContent h).length ≤ 800 := by omega
    simp [sizeTier, h2, h3]

/-- C6: for every non-empty input whose whitespace-normalised plain text is longer than 900
code units, `makeDescriptionInfo` returns `baseFontSize` 16 and its paragraphs, joined by single
spaces, are the first 900 code units of that text followed by one ellipsis; the last
paragraph ends with the ellipsis. -/
theorem makeDescriptionInfo_truncated (textContent : JSString → Option JSString)
    (h : JSString) (hne : h ≠ []) (hlen : 900 < (fullTextOf textContent h).length) :
    (makeDescriptionInfo textContent (some h)).baseFontSize = 16 ∧
    joinSpace (makeDescriptionInfo textContent (some h)).paragraphs =
      (fullTextOf textContent h).take 900 ++ [ELLIPSIS] ∧
    ∃ ps p, (makeDescriptionInfo textContent (some h)).paragraphs = ps ++ [p] ∧
      p.getLast? = some ELLIPSIS := by
  have hclean := truncateText_clean _ (fullTextOf_clean textContent h)
  have hjoin := packParagraphs_splitSentences_join _ hclean
  have hedge := (splitSentences_clean _ hclean).2.1
  have hok := packParagraphs_paraOk _ hedge
  rw [makeDescriptionInfo_some textContent h hne]
  rw [truncateText_of_gt _ hlen] at hjoin hok
  rw [truncateText_of_gt _ hlen]
  refine ⟨?_, hjoin, ?_⟩
  · have h2 : ¬ (fullTextOf textContent h).length ≤ 350 := by omega
    have h3 : ¬ (fullTextOf textContent h).length ≤ 800 := by omega
    simp [sizeTier, h2, h3]
  · rcases List.eq_nil_or_concat
      (packParagraphs (splitSentences ((fullTextOf textContent h).take 900 ++ [ELLIPSIS])))
      with h0 | ⟨ps, p, hps⟩
    · rw [h0] at hjoin
      simp [joinSpace] at hjoin
    · rw [List.concat_eq_append] at hps
      refine ⟨ps, p, hps, ?_⟩
      have hp : p ≠ [] := (hok p (by rw [hps]; simp)).1
      have := joinSpace_concat_getLast ps p hp
      rw [← hps, hjoin, List.getLast?_concat] at this
      exact this.symm

/-- Witness of C5: the one-letter text `"a"` is in the first tier. -/
theorem makeDescriptionInfo_baseFontSize_witness :
    ofString "a" ≠ [] ∧
    (makeDescriptionInfo plainTextContent (some (ofString "a"))).baseFontSize = 20 :=
  ⟨by decide,
    (makeDescriptionInfo_baseFontSize plainTextContent (ofString "a") (by decide)).2.2.1
      (by decide)⟩

/-- Witness of C6: a plain text of 1000 letters. -/
theorem makeDescriptionInfo_truncated_witness :
    (thousandLetters ≠ [] ∧ 900 < (fullTextOf plainTextContent thousandLetters).length) ∧
    (makeDescriptionInfo plainTextContent (some thousandLetters)).baseFontSize = 16 ∧
    joinSpace (makeDescriptionInfo plainTextContent (some thousandLetters)).paragraphs =
      (fullTextOf plainTextContent thousandLetters).take 900 ++ [ELLIPSIS] :=
  have h0 : thousandLetters ≠ [] := by decide
  have h1 : 900 < (fullTextOf plainTextContent thousandLetters).length := by decide
  ⟨⟨h0, h1⟩,
    (makeDescriptionInfo_truncated plainTextContent thousandLetters h0 h1).1,
    (makeDescriptionInfo_truncated plainTextContent thousandLetters h0 h1).2.1⟩

/-- C7 as stated fails: a markup-free text of 300 code units made of thirty short sentences
gets `baseFontSize` 20 but two paragraphs, of 279 and 20 code units. -/
theorem makeDescriptionInfo_plain300_counterexample :
    thirtySentences.length = 300 ∧
    plainTextContent thirtySentences = some thirtySentences ∧
    (makeDescriptionInfo plainTextContent (some thirtySentences)).baseFontSize = 20 ∧
    (makeDescriptionInfo plainTextContent (some thirtySentences)).paragraphs.map List.length =
      [279, 20] ∧
    ¬ (makeDescriptionInfo plainTextContent (some thirtySentences)).paragraphs.length = 1 := by
  decide

/-- C7, amended: a markup-free input of 300 code units gets `baseFontSize` 20; when its
whitespace-normalised text is non-empty and either has at most 280 code units or contains no
sentence break, the result has exactly one paragraph, that normalised text. -/
theorem makeDescriptionInfo_plain300 (textContent : JSString → Option JSString)
    (h : JSString) (hplain : textContent h = some h) (hlen : h.length = 300) :
    (makeDescriptionInfo textContent (some h)).baseFontSize = 20 ∧
    (normalize h ≠ [] → ((normalize h).length ≤ 280 ∨ NoSentenceBreak (normalize h)) →
      (makeDescriptionInfo textContent (some h)).paragraphs = [normalize h] ∧
      (makeDescriptionInfo textContent (some h)).paragraphs.length = 1) := by
  have hne : h ≠ [] := by
    intro h0
    rw [h0] at hlen
    cases hlen
  have hfull : fullTextOf textContent h = normalize h := by
    simp [fullTextOf, hplain]
  have hle : (normalize h).length ≤ 300 := hlen ▸ normalize_length h
  have htrunc : truncateText (normalize h) = normalize h := truncateText_of_le _ (by omega)
  have hclean : Clean (normalize h) := normalize_clean h
  rw [makeDescriptionInfo_some textContent h hne, hfull, htrunc]
  refine ⟨?_, ?_⟩
  · have : (normalize h).length ≤ 350 := by omega
    simp [sizeTier, this]
  · intro h0 hcases
    have hone : packParagraphs (splitSentences (normalize h)) = [normalize h] := by
      rcases hcases with hshort | hnobreak
      · exact packParagraphs_splitSentences_short _ hclean h0 hshort
      · unfold splitSentences
        rw [splitLoop_noBreak _ false hnobreak (fun h' => by cases h')]
        exact packParagraphs_single _ hclean.2 h0
    show packParagraphs (splitSentences (normalize h)) = [normalize h] ∧
      (packParagraphs (splitSentences (normalize h))).length = 1
    rw [hone]
    exact ⟨rfl, rfl⟩

/-- Witness of C7, amended: `"A. B."` followed by 295 spaces. -/
theorem makeDescriptionInfo_plain300_witness :
    (plainTextContent paddedSentences = some paddedSentences ∧ paddedSentences.length = 300 ∧
      normalize paddedSentences ≠ [] ∧ (normalize paddedSentences).length ≤ 280) ∧
    (makeDescriptionInfo plainTextContent (some paddedSentences)).baseFontSize = 20 ∧
    (makeDescriptionInfo plainTextContent (some paddedSentences)).paragraphs =
      [ofString "A. B."] :=
  have h1 : paddedSentences.length = 300 := by decide
  have h2 : normalize paddedSentences ≠ [] := by decide
  have h3 : (normalize paddedSentences).length ≤ 280 := by decide
  have hn : normalize paddedSentences = ofString "A. B." := by decide
  ⟨⟨rfl, h1, h2, h3⟩,
    (makeDescriptionInfo_plain300 plainTextContent paddedSentences rfl h1).1,
    hn ▸ ((makeDescriptionInfo_plain300 plainTextContent paddedSentences rfl h1).2 h2
      (Or.inl h3)).1⟩

/-- C8 as stated fails: the one sentence `"A  b."`, with two spaces inside, ends in `.` and is
shorter than 280 code units, but the paragraph returned is `"A b."`, not the joined text. -/
theorem makeDescriptionInfo_sentences_counterexample :
    [ofString "A  b."] ≠ [] ∧
    (∀ s ∈ [ofString "A  b."], EndsWithTerminator s) ∧
    (joinSpace [ofString "A  b."]).length ≤ 280 ∧
    plainTextContent (joinSpace [ofString "A  b."]) = some (joinSpace [ofString "A  b."]) ∧
    (makeDescriptionInfo plainTextContent (some (joinSpace [ofString "A  b."]))).paragraphs =
      [ofString "A b."] ∧
    (makeDescriptionInfo plainTextContent (some (joinSpace [ofString "A  b."]))).paragraphs ≠
      [joinSpace [ofString "A  b."]] := by
  refine ⟨by decide, ?_, by decide, rfl, by decide, by decide⟩
  intro s hs
  simp only [List.mem_singleton] at hs
  subst hs
  exact ⟨46, by decide, by decide⟩

theorem joinSpace_ne_nil (p : JSString) (ps : List JSString) (hp : p ≠ []) :
    joinSpace (p :: ps) ≠ [] := by
  cases ps with
  | nil => exact hp
  | cons q rest =>
    rw [joinSpace_cons_cons]
    simp

/-- C8, amended: for every non-empty list of sentences, each ending in `.`, `!` or `?`, whose
single-space join has at most 280 code units, contains no markup and is already
whitespace-normalised, `makeDescriptionInfo` applied to the joined text returns exactly one
paragraph, the joined text. -/
theorem makeDescriptionInfo_sentences (textContent : JSString → Option JSString)
    (sentences : List JSString) (hne : sentences ≠ [])
    (hend : ∀ s ∈ sentences, EndsWithTerminator s)
    (hlen : (joinSpace sentences).length ≤ 280)
    (hplain : textContent (joinSpace sentences) = some (joinSpace sentences))
    (hnorm : normalize (joinSpace sentences) = joinSpace sentences) :
    (makeDescriptionInfo textContent (some (joinSpace sentences))).paragraphs =
      [joinSpace sentences] := by
  have hJ : joinSpace sentences ≠ [] := by
    cases sentences with
    | nil => exact absurd rfl hne
    | cons p ps =>
      apply joinSpace_ne_nil
      obtain ⟨c, hc, -⟩ := hend p (List.mem_cons_self _ _)
      intro h0
      rw [h0] at hc
      cases hc
  have hfull : fullTextOf textContent (joinSpace sentences) = joinSpace sentences := by
    simp [fullTextOf, hplain, hnorm]
  have hclean : Clean (joinSpace sentences) := hnorm ▸ normalize_clean (joinSpace sentences)
  rw [makeDescriptionInfo_some textContent _ hJ, hfull, truncateText_of_le _ (by omega)]
  exact packParagraphs_splitSentences_short _ hclean hJ hlen

/-- Witness of C8, amended: the sentences `"A."`, `"B."`, `"C."` give the one paragraph
`"A. B. C."`. -/
theorem makeDescriptionInfo_sentences_witness :
    ([ofString "A.", ofString "B.", ofString "C."] ≠ [] ∧
      (∀ s ∈ [ofString "A.", ofString "B.", ofString "C."], EndsWithTerminator s) ∧
      joinSpace [ofString "A.", ofString "B.", ofString "C."] = ofString "A. B. C.") ∧
    (makeDescriptionInfo plainTextContent
      (some (joinSpace [ofString "A.", ofString "B.", ofString "C."]))).paragraphs =
      [joinSpace [ofString "A.", ofString "B.", ofString "C."]] :=
  have hend : ∀ s ∈ [ofString "A.", ofString "B.", ofString "C."], EndsWithTerminator s := by
    intro s hs
    simp only [List.mem_cons, List.mem_singleton, List.not_mem_nil, or_false] at hs
    rcases hs with hs | hs | hs <;> subst hs <;> exact ⟨46, by decide, by decide⟩
  ⟨⟨by decide, hend, by decide⟩,
    makeDescriptionInfo_sentences plainTextContent
      [ofString "A.", ofString "B.", ofString "C."] (by decide) hend (by decide) rfl
      (by decide)⟩

/-- C10: every paragraph returned by `makeDescriptionInfo` is non-empty and either is a single
sentence (one piece of the split of the text) or has at most 280 code units; so a paragraph
longer than 280 code units is a single sentence that is itself longer than 280 code units. -/
theorem makeDescriptionInfo_paragraphs (textContent : JSString → Option JSString)
    (html : Option JSString) (p : JSString)
    (hp : p ∈ (makeDescriptionInfo textContent html).paragraphs) :
    p ≠ [] ∧ ∃ h, html = some h ∧
      (p ∈ splitSentences (truncateText (fullTextOf textContent h)) ∨ p.length ≤ 280) ∧
      (280 < p.length → p ∈ splitSentences (truncateText (fullTextOf textContent h))) := by
  cases html with
  | none => simp [makeDescriptionInfo] at hp
  | some h =>
    by_cases h0 : h = []
    · simp [makeDescriptionInfo, h0] at hp
    · rw [makeDescriptionInfo_some textContent h h0] at hp
      have hclean := truncateText_clean _ (fullTextOf_clean textContent h)
      have hedge := (splitSentences_clean _ hclean).2.1
      obtain ⟨hpne, hpok⟩ := packParagraphs_paraOk _ hedge p hp
      refine ⟨hpne, h, rfl, hpok, ?_⟩
      intro hlong
      rcases hpok with hmem | hshort
      · exact hmem
      · omega

/-- Witness of C10: the paragraph `"A. B. C."` of the text `"A. B. C."`. -/
theorem makeDescriptionInfo_paragraphs_witness :
    ofString "A. B. C." ∈
      (makeDescriptionInfo plainTextContent (some (ofString "A. B. C."))).paragraphs ∧
    ofString "A. B. C." ≠ [] ∧ (ofString "A. B. C.").length ≤ 280 :=
  have hmem : ofString "A. B. C." ∈
      (makeDescriptionInfo plainTextContent (some (ofString "A. B. C."))).paragraphs := by
    decide
  ⟨hmem, (makeDescriptionInfo_paragraphs plainTextContent _ _ hmem).1, by decide⟩

/-- C11: for every non-empty input whose whitespace-normalised plain text is non-empty and has
at most 900 code units, nothing is truncated and no ellipsis is added (the text that is split
is the normalised plain text itself), and the paragraphs returned by `makeDescriptionInfo`,
joined by single spaces as in `descriptionKey`, are exactly that normalised plain text. -/
theorem makeDescriptionInfo_join (textContent : JSString → Option JSString) (h : JSString)
    (hne : h ≠ []) (hfull : fullTextOf textContent h ≠ [])
    (hlen : (fullTextOf textContent h).length ≤ 900) :
    truncateText (fullTextOf textContent h) = fullTextOf textContent h ∧
    joinSpace (makeDescriptionInfo textContent (some h)).paragraphs =
      fullTextOf textContent h ∧
    (makeDescriptionInfo textContent (some h)).paragraphs ≠ [] := by
  have htrunc := truncateText_of_le _ hlen
  have hjoin := packParagraphs_splitSentences_join _ (fullTextOf_clean textContent h)
  rw [makeDescriptionInfo_some textContent h hne, htrunc]
  refine ⟨rfl, hjoin, ?_⟩
  intro h0
  have h1 : packParagraphs (splitSentences (fullTextOf textContent h)) = [] := h0
  rw [h1] at hjoin
  exact hfull hjoin.symm

/-- Witness of C11: the text `"A  b. C?"` is normalised to `"A b. C?"`, which is what the
paragraphs joined by single spaces give. -/
theorem makeDescriptionInfo_join_witness :
    (ofString "A  b. C?" ≠ [] ∧ fullTextOf plainTextContent (ofString "A  b. C?") ≠ [] ∧
      (fullTextOf plainTextContent (ofString "A  b. C?")).length ≤ 900) ∧
    fullTextOf plainTextContent (ofString "A  b. C?") = ofString "A b. C?" ∧
    joinSpace (makeDescriptionInfo plainTextContent (some (ofString "A  b. C?"))).paragraphs =
      fullTextOf plainTextContent (ofString "A  b. C?") :=
  have h0 : ofString "A  b. C?" ≠ [] := by decide
  have h1 : fullTextOf plainTextContent (ofString "A  b. C?") ≠ [] := by decide
  have h2 : (fullTextOf plainTextContent (ofString "A  b. C?")).length ≤ 900 := by decide
  ⟨⟨h0, h1, h2⟩, by decide,
    (makeDescriptionInfo_join plainTextContent (ofString "A  b. C?") h0 h1 h2).2.1⟩

end QuestBoard
